import Mathlib

/-!
# Question bank: the download handler of `server/routes/questions.js`

A shallow embedding of `router.get('/:id/download', auth, ...)` (lines 480-621), of the
counter method `incrementDownloads` of `server/models/Question.js`, and of the pure helpers the
handler computes inline (extension derivation, resource family, version token, attempt list).
The update route `router.put('/:id', ...)` (lines 397-446) and the interleaving of concurrent
requests on the question counter are embedded next to it, and so are the create, view, verify
and delete routes, the upload file filter, the pagination of `server/routes/users.js` and
`formatTimeRemaining` of `src/utils/sessionManager.js`.

The handler talks to four collaborators: the document store, the HTTP client (axios), the
storage SDK (`cloudinary.url`) and the local disk. Their answers are gathered in a `World`
value; the handler is a function of the world and of the stored records, and it returns the
new records, the response, and the ordered list of storage actions it performed.
-/

namespace QuestionBank

/-! ## Data model -/

/-- Bytes of a file body, one number per byte. -/
abbrev Bytes := List Nat

/-- Question document, the fields of `questionSchema` the file routes read or write.
Object ids are kept as their string form; the counters are JavaScript numbers and are taken
as naturals. -/
structure Question where
  id : String
  uploadedBy : String
  isVerified : Bool := false
  verifiedBy : Option String := none
  verifiedAt : Option Nat := none
  fileUrl : String := ""
  fileName : String := ""
  cloudinaryPublicId : String := ""
  downloads : Nat := 0
  views : Nat := 0
  deriving DecidableEq, Repr

/-- User document, the fields of `userSchema` the question routes read or write. -/
structure User where
  id : String
  username : String := ""
  role : String := "student"
  isAdmin : Bool := false
  uploadsCount : Nat := 0
  downloadsCount : Nat := 0
  deriving DecidableEq, Repr

/-- Stored records one download request can touch: the document `Question.findById(req.params.id)`
resolves to (`none` when there is none) and the user document behind `req.user`. -/
structure Store where
  question : Option Question
  requester : User
  deriving DecidableEq, Repr

/-- A fulfilled `axios.get(url, { responseType: 'arraybuffer' })`: the two response headers the
handler reads (`none` when the header is absent, which JavaScript reads as `undefined`) and
the body. -/
structure HttpResponse where
  contentType : Option String := none
  contentLength : Option String := none
  data : Bytes := []
  deriving DecidableEq, Repr

/-- Options object handed to `cloudinary.url` (lines 572-581). -/
structure SignOptions where
  resource_type : String
  type : String
  sign_url : Bool
  secure : Bool
  version : Option String
  expires_at : Nat
  attachment : Bool
  flags : String
  deriving DecidableEq, Repr

/-- One entry of the `attempts` array (lines 563-568). -/
structure Attempt where
  type : String
  resource_type : String
  deriving DecidableEq, Repr

/-- Collaborators and runtime built-ins of one request.

* `findError`, `saveError`, `userUpdateError`: `some msg` when `Question.findById`,
  `question.save()` or `User.findByIdAndUpdate` rejects with that message;
* `httpGet n url`: what the `n`-th `axios.get` of the request (counted from 0) yields for
  `url`; `none` when it rejects (network error or a status outside 2xx);
* `signUrl`: `cloudinary.url(publicId, options)`;
* `now n`: `Date.now()` in milliseconds as read by the `n`-th signed attempt;
* `existsSync`: `fs.existsSync`;
* `uploadsPath name`: `path.join(__dirname, '..', 'uploads', name)`;
* `urlPathname s`: `new URL(s).pathname`, `none` when the constructor throws;
* `toLowerCase`: `String.prototype.toLowerCase`. -/
structure World where
  findError : Option String := none
  saveError : Option String := none
  userUpdateError : Option String := none
  httpGet : Nat → String → Option HttpResponse
  signUrl : String → SignOptions → String
  now : Nat → Nat
  existsSync : String → Bool
  uploadsPath : String → String
  urlPathname : String → Option String
  toLowerCase : String → String

/-- Storage actions of the handler, in the order they are logged in the trace. -/
inductive Action where
  | httpGet (url : String)
  | signUrl (publicId : String) (opts : SignOptions)
  | existsSync (path : String)
  deriving DecidableEq, Repr

/-- What the handler hands to the client as body. -/
inductive Body where
  | empty
  | json (message : String)
  | jsonError (message : String) (error : String)
  | buffer (data : Bytes)
  | download (path : String) (filename : String)
  deriving DecidableEq, Repr

/-- Express response object: status code (200 until `res.status` changes it), the headers set
with `res.setHeader`, and the body. -/
structure Res where
  status : Nat := 200
  headers : List (String × String) := []
  body : Body := Body.empty
  deriving DecidableEq, Repr

/-- Response under construction together with the storage actions performed so far. -/
structure Exchange where
  res : Res := {}
  trace : List Action := []
  deriving DecidableEq, Repr

/-- Result of one request: the records afterwards, the response, the storage actions. -/
structure Outcome where
  store : Store
  res : Res
  trace : List Action
  deriving DecidableEq, Repr

/-! ## String helpers -/

/-- JavaScript `s.includes(sub)`. -/
def includes (s sub : String) : Bool :=
  s.data.tails.any (fun t => sub.data.isPrefixOf t)

/-- JavaScript `s.split(sep).pop()` for a one-character separator: the text after the last
`sep`, the whole string when there is none. -/
def splitPop (sep : Char) (s : String) : String :=
  String.mk (s.data.reverse.takeWhile (fun c => c != sep)).reverse

/-- JavaScript `a || b` on strings: `b` when `a` is the empty string. -/
def orElse (a b : String) : String :=
  if a = "" then b else a

/-- JavaScript `h || d` on a header that may be undefined. -/
def orDefault (h : Option String) (d : String) : String :=
  match h with
  | some v => orElse v d
  | none => d

/-- JavaScript truthiness of a header that may be undefined. -/
def truthy (h : Option String) : Bool :=
  match h with
  | some v => v != ""
  | none => false

/-! ## Response helpers -/

/-- Characters Node accepts in a header value: tab, 0x20-0x7e and 0x80-0xff. -/
def validHeaderChar (c : Char) : Bool :=
  c.toNat == 9 || (32 ≤ c.toNat && c.toNat ≤ 126) || (128 ≤ c.toNat && c.toNat ≤ 255)

/-- Header values `res.setHeader` accepts. -/
def validHeaderValue (v : String) : Bool :=
  v.data.all validHeaderChar

/-- Node's `res.setHeader(name, value)`: it throws (`none`), leaving the response as it was,
when the value is `undefined` or holds a character outside `validHeaderChar`; otherwise the
header replaces an earlier one of the same name. -/
def Res.setHeader (r : Res) (name : String) (value : Option String) : Option Res :=
  match value with
  | none => none
  | some v =>
    if validHeaderValue v then
      some { r with headers := (name, v) :: r.headers.filter (fun h => h.1 != name) }
    else none

/-- A run of `res.setHeader` statements: they are executed in order up to the first one that
throws; the flag tells whether all of them went through. -/
def Res.setHeaders : Res → List (String × Option String) → Res × Bool
  | r, [] => (r, true)
  | r, (name, value) :: rest =>
    match r.setHeader name value with
    | none => (r, false)
    | some r1 => Res.setHeaders r1 rest

/-- The statement `res.send(Buffer.from(data))`. -/
def Res.send (r : Res) (data : Bytes) : Res :=
  { r with body := Body.buffer data }

/-- The statement `res.download(path, filename)`. -/
def Res.download (r : Res) (path filename : String) : Res :=
  { r with body := Body.download path filename }

/-- The statement `res.status(code).json({ message })`. -/
def Res.json (r : Res) (code : Nat) (message : String) : Res :=
  { r with status := code, body := Body.json message }

/-- Append one action to the trace. -/
def Exchange.log (x : Exchange) (a : Action) : Exchange :=
  { x with trace := x.trace ++ [a] }

/-! ## Pure helpers of the signed-URL fallback (lines 542-568) -/

/-- The constant `extFromName` (line 543). -/
def extFromName (w : World) (filename : String) : String :=
  if includes filename "." then w.toLowerCase (splitPop '.' filename) else ""

/-- The constant `extFromUrl` (lines 544-550). -/
def extFromUrl (w : World) (fileUrl : String) : String :=
  match w.urlPathname fileUrl with
  | none => ""
  | some urlPath =>
    let last := orElse (splitPop '/' urlPath) ""
    if includes last "." then w.toLowerCase (splitPop '.' last) else ""

/-- The constant `fileExtension` (line 551). -/
def fileExtension (w : World) (q : Question) : String :=
  orElse (extFromName w (orElse q.fileName "")) (orElse (extFromUrl w q.fileUrl) "pdf")

/-- The array `docExts` (line 554). -/
def docExts : List String :=
  ["pdf", "doc", "docx", "txt", "rtf", "odt", "xls", "xlsx", "ppt", "pptx"]

/-- The array `imgExts` (line 555). -/
def imgExts : List String :=
  ["jpg", "jpeg", "png", "gif", "webp", "bmp", "tiff", "tif", "svg", "ico"]

/-- The constant `primaryResource` (line 556). -/
def primaryResource (fileExtension : String) : String :=
  if docExts.contains fileExtension then "raw"
  else if imgExts.contains fileExtension then "image" else "raw"

/-- The constant `altResource` (line 557). -/
def altResource (fileExtension : String) : String :=
  if primaryResource fileExtension = "raw" then "image" else "raw"

/-- The array `attempts` (lines 563-568). -/
def attempts (fileExtension : String) : List Attempt :=
  [ { type := "authenticated", resource_type := primaryResource fileExtension },
    { type := "authenticated", resource_type := altResource fileExtension },
    { type := "upload", resource_type := primaryResource fileExtension },
    { type := "upload", resource_type := altResource fileExtension } ]

/-- The regular expression `\/v(\d+)\/` tried at the head of the text: the captured digits. -/
def matchVersionAt : List Char → Option (List Char)
  | '/' :: 'v' :: rest =>
    let digits := rest.takeWhile Char.isDigit
    if digits ≠ [] ∧ (rest.drop digits.length).head? = some '/' then some digits else none
  | _ => none

/-- Leftmost match of `\/v(\d+)\/` in the text. -/
def matchVersion : List Char → Option (List Char)
  | [] => none
  | c :: cs =>
    match matchVersionAt (c :: cs) with
    | some digits => some digits
    | none => matchVersion cs

/-- The constant `version` (lines 560-561). -/
def version (fileUrl : String) : Option String :=
  (matchVersion fileUrl.data).map String.mk

/-- Options of the `cloudinary.url` call of the `n`-th attempt (lines 572-581). -/
def signOptions (w : World) (q : Question) (n : Nat) (attempt : Attempt) : SignOptions :=
  { resource_type := attempt.resource_type
    type := attempt.type
    sign_url := true
    secure := true
    version := version q.fileUrl
    expires_at := w.now n / 1000 + 300
    attachment := true
    flags := "attachment" }

/-- The URL `cloudinary.url` returns for the `n`-th attempt. -/
def signedUrl (w : World) (q : Question) (n : Nat) (attempt : Attempt) : String :=
  w.signUrl q.cloudinaryPublicId (signOptions w q n attempt)

/-! ## The retrieval chain (lines 519-612) -/

/-- Headers the direct fetch sets before sending (lines 527-530); `Content-Length` is handed
over as it was read, `undefined` when the upstream response has none. -/
def directHeaders (q : Question) (fileResponse : HttpResponse) : List (String × Option String) :=
  [ ("Content-Disposition", some ("attachment; filename=\"" ++ q.fileName ++ "\"")),
    ("Content-Type", some (orDefault fileResponse.contentType "application/pdf")),
    ("Content-Length", fileResponse.contentLength),
    ("Access-Control-Expose-Headers", some "Content-Disposition") ]

/-- Body of the first `try` (lines 522-535): the GET of `fileUrl`, the four `setHeader`
statements and `res.send`. The flag is `true` when the block ran to its end, `false` when it
threw and control passed to `catch (downloadError)`. -/
def directFetch (w : World) (q : Question) (x : Exchange) : Exchange × Bool :=
  let x1 := x.log (Action.httpGet q.fileUrl)
  match w.httpGet 0 q.fileUrl with
  | none => (x1, false)
  | some fileResponse =>
    match x1.res.setHeaders (directHeaders q fileResponse) with
    | (r, false) => ({ x1 with res := r }, false)
    | (r, true) => ({ x1 with res := r.send fileResponse.data }, true)

/-- Headers a signed attempt sets before sending (lines 583-588). -/
def signedHeaders (filename fileExtension : String) (signedResp : HttpResponse) :
    List (String × Option String) :=
  [ ("Content-Disposition",
      some ("attachment; filename=\"" ++ orElse filename ("download." ++ fileExtension) ++ "\"")),
    ("Content-Type", some (orDefault signedResp.contentType "application/octet-stream")) ]
  ++ (if truthy signedResp.contentLength then [("Content-Length", signedResp.contentLength)]
      else [])
  ++ [ ("Access-Control-Expose-Headers", some "Content-Disposition") ]

/-- The loop `for (const attempt of attempts)` (lines 570-593), started at attempt number `n`
with the attempts that are left. Each attempt signs a URL, GETs it, sets the headers and
sends; a throw anywhere in the attempt is caught and the loop goes on. The flag is `true`
when an attempt returned the response. -/
def signedLoop (w : World) (q : Question) (filename fileExtension : String) :
    List Attempt → Nat → Exchange → Exchange × Bool
  | [], _, x => (x, false)
  | attempt :: rest, n, x =>
    let url := signedUrl w q n attempt
    let x1 := (x.log (Action.signUrl q.cloudinaryPublicId (signOptions w q n attempt))).log
      (Action.httpGet url)
    match w.httpGet (n + 1) url with
    | none => signedLoop w q filename fileExtension rest (n + 1) x1
    | some signedResp =>
      match x1.res.setHeaders (signedHeaders filename fileExtension signedResp) with
      | (r, false) => signedLoop w q filename fileExtension rest (n + 1) { x1 with res := r }
      | (r, true) => ({ x1 with res := r.send signedResp.data }, true)

/-- Body of the second `try` (lines 541-594): the signed-URL matrix, entered only when
`cloudinaryPublicId` is non-empty. -/
def signedFallback (w : World) (q : Question) (x : Exchange) : Exchange × Bool :=
  if q.cloudinaryPublicId ≠ "" then
    let filename := orElse q.fileName ""
    signedLoop w q filename (fileExtension w q) (attempts (fileExtension w q)) 0 x
  else (x, false)

/-- Body of the third `try` (lines 601-605): `fs.existsSync` is evaluated only when `fileName`
is non-empty. -/
def localFallback (w : World) (q : Question) (x : Exchange) : Exchange × Bool :=
  let localPath := w.uploadsPath (orElse q.fileName "")
  if q.fileName ≠ "" then
    let x1 := x.log (Action.existsSync localPath)
    if w.existsSync localPath then
      ({ x1 with res := x1.res.download localPath q.fileName }, true)
    else (x1, false)
  else (x, false)

/-- The branch taken for a `fileUrl` that contains `cloudinary.com` (lines 520-612). -/
def retrievalChain (w : World) (q : Question) (x : Exchange) : Exchange :=
  match directFetch w q x with
  | (x1, true) => x1
  | (x1, false) =>
    match signedFallback w q x1 with
    | (x2, true) => x2
    | (x2, false) =>
      match localFallback w q x2 with
      | (x3, true) => x3
      | (x3, false) => { x3 with res := x3.res.json 404 "File could not be retrieved from storage" }

/-! ## The handler (lines 480-621) -/

/-- The method `incrementDownloads` of `Question.js` (lines 115-118), the in-memory part. -/
def incrementDownloads (q : Question) : Question :=
  { q with downloads := q.downloads + 1 }

/-- The update `{ $inc: { downloadsCount: 1 } }` on a user document (line 509). -/
def incDownloadsCount (u : User) : User :=
  { u with downloadsCount := u.downloadsCount + 1 }

/-- The flag `isOwner` (line 493). -/
def isOwner (requester : User) (q : Question) : Bool :=
  q.uploadedBy == requester.id

/-- The flag `isAdmin` (line 494). -/
def isAdmin (requester : User) : Bool :=
  requester.role == "admin"

/-- The condition of line 501 negated: the request passes the access gate. -/
def canDownload (requester : User) (q : Question) : Bool :=
  !(!isOwner requester q && !isAdmin requester && !q.isVerified)

/-- The outer `catch` (lines 617-620). -/
def internalError (s : Store) (error : String) : Outcome :=
  { store := s
    res := { status := 500, body := Body.jsonError "Error downloading file" error }
    trace := [] }

/-- The handler `router.get('/:id/download', auth, ...)` once `auth` has set `req.user` to
`s.requester`. -/
def download (w : World) (s : Store) : Outcome :=
  match w.findError with
  | some e => internalError s e
  | none =>
    match s.question with
    | none => { store := s, res := Res.json {} 404 "Question not found", trace := [] }
    | some question =>
      if question.fileUrl = "" then
        { store := s, res := Res.json {} 404 "No file attached to this question", trace := [] }
      else if !isOwner s.requester question && !isAdmin s.requester && !question.isVerified then
        { store := s
          res := Res.json {} 403
            "This question is not verified yet. Only verified questions can be downloaded by other users."
          trace := [] }
      else
        match w.saveError with
        | some e => internalError s e
        | none =>
          let question1 := incrementDownloads question
          let s1 : Store := { s with question := some question1 }
          match w.userUpdateError with
          | some e => internalError s1 e
          | none =>
            let s2 : Store := { s1 with requester := incDownloadsCount s1.requester }
            if includes question1.fileUrl "cloudinary.com" then
              let x := retrievalChain w question1 {}
              { store := s2, res := x.res, trace := x.trace }
            else
              { store := s2
                res := Res.json {} 404 "File format not supported for download"
                trace := [] }

/-! ## The blocks of the chain taken one by one -/

/-- A body that carries a file: the buffer of `res.send` or the file of `res.download`. -/
def Body.isFile : Body → Bool
  | Body.buffer _ => true
  | Body.download _ _ => true
  | _ => false

/-- A run of `res.setHeader` statements goes through: every value is defined and valid. -/
def headersAccepted (hs : List (String × Option String)) : Bool :=
  hs.all (fun h => match h.2 with
    | some v => validHeaderValue v
    | none => false)

/-- Bytes the first `try` block (lines 520-535) sends: `some` when the block runs to its
`res.send`, that is when the GET is fulfilled and the four `setHeader` statements of lines
527-530 go through; `none` when control enters the `catch` of line 536, be it from a rejected
GET or from a `setHeader` that throws after a fulfilled GET. This is the code's own division
into a block that ends and a block that is left; the bytes the GET itself returned are
`directFetched`. -/
def directBytes (w : World) (q : Question) : Option Bytes :=
  match w.httpGet 0 q.fileUrl with
  | some fileResponse =>
    if headersAccepted (directHeaders q fileResponse) then some fileResponse.data else none
  | none => none

/-- Bytes the `try` block of attempt number `n` (lines 571-589) sends: `some` when the block
runs to its `res.send`, that is when the GET of the signed URL is fulfilled and the
`setHeader` statements of lines 583-588 go through; `none` when control enters the `catch` of
line 590, be it from a rejected GET or from a `setHeader` that throws after a fulfilled GET.
The bytes the GET itself returned are `attemptFetched`. -/
def attemptBytes (w : World) (q : Question) (n : Nat) (attempt : Attempt) : Option Bytes :=
  match w.httpGet (n + 1) (signedUrl w q n attempt) with
  | some signedResp =>
    if headersAccepted (signedHeaders (orElse q.fileName "") (fileExtension w q) signedResp)
    then some signedResp.data else none
  | none => none

/-- Actions of attempt number `n`: the signing, then the GET of the signed URL. -/
def attemptActions (w : World) (q : Question) (n : Nat) (attempt : Attempt) : List Action :=
  [ Action.signUrl q.cloudinaryPublicId (signOptions w q n attempt),
    Action.httpGet (signedUrl w q n attempt) ]

/-- Actions of consecutive attempts, the first one having number `n`. -/
def attemptsActions (w : World) (q : Question) : List Attempt → Nat → List Action
  | [], _ => []
  | attempt :: rest, n => attemptActions w q n attempt ++ attemptsActions w q rest (n + 1)

/-- The `k`-th block of the chain taken on its own, in the order direct fetch (0), signed
attempts one to four (1-4), local fallback (5): the body the block sends when it runs to its
end, `none` when control leaves it through its `catch`, or when it does not apply. A fetch
block runs to its end when the GET is fulfilled and the `setHeader` statements that follow go
through, so a fetched file whose headers are refused counts as `none` here; the body a
strategy returned in the sense of the specification (a fulfilled GET) is `fetchedBody`. The
signed attempts apply only to a non-empty `cloudinaryPublicId`, the local fallback sends the
file when `fileName` is non-empty and the file exists. -/
def strategyBody (w : World) (q : Question) : Nat → Option Body
  | 0 => (directBytes w q).map Body.buffer
  | k + 1 =>
    match (attempts (fileExtension w q))[k]? with
    | some attempt =>
      if q.cloudinaryPublicId ≠ "" then (attemptBytes w q k attempt).map Body.buffer else none
    | none =>
      if k = 4 ∧ q.fileName ≠ "" ∧ w.existsSync (w.uploadsPath q.fileName) = true then
        some (Body.download (w.uploadsPath q.fileName) q.fileName)
      else none

/-- Actions of the `k`-th block when the chain reaches it. -/
def strategyActions (w : World) (q : Question) : Nat → List Action
  | 0 => [Action.httpGet q.fileUrl]
  | k + 1 =>
    match (attempts (fileExtension w q))[k]? with
    | some attempt => if q.cloudinaryPublicId ≠ "" then attemptActions w q k attempt else []
    | none =>
      if k = 4 ∧ q.fileName ≠ "" then [Action.existsSync (w.uploadsPath q.fileName)] else []

/-- The action is a lookup on the local disk. -/
def Action.isDiskLookup : Action → Bool
  | Action.existsSync _ => true
  | _ => false

/-- What a block of the chain leaves behind when it fails: status and body as before. -/
def Exchange.sameReply (x1 x : Exchange) : Prop :=
  x1.res.status = x.res.status ∧ x1.res.body = x.res.body

/-! ## Sample records and worlds -/

/-- ASCII lower-casing, the `toLowerCase` of the sample worlds. -/
def asciiLower (s : String) : String :=
  String.mk (s.data.map Char.toLower)

/-- Path of an `https://host/path` URL, the `urlPathname` of the sample worlds. -/
def samplePathname (s : String) : Option String :=
  if "https://".data.isPrefixOf s.data then
    some (String.mk ((s.data.drop 8).dropWhile (fun c => c != '/')))
  else none

/-- Signed URL of the sample worlds: it names the family, the delivery type and the object. -/
def sampleSign (publicId : String) (o : SignOptions) : String :=
  "https://res.cloudinary.com/demo/" ++ o.resource_type ++ "/" ++ o.type ++ "/s--sig--/" ++ publicId

/-- A world in which every GET is rejected and the uploads directory is empty. -/
def deadWorld : World :=
  { httpGet := fun _ _ => none
    signUrl := sampleSign
    now := fun _ => 1700000000000
    existsSync := fun _ => false
    uploadsPath := fun name => "/srv/server/uploads/" ++ name
    urlPathname := samplePathname
    toLowerCase := asciiLower }

/-- A world in which the first GET of a request is fulfilled with a three-byte PDF. -/
def liveWorld : World :=
  { deadWorld with
    httpGet := fun n _ =>
      if n = 0 then
        some { contentType := some "application/pdf", contentLength := some "3", data := [37, 80, 68] }
      else none }

/-- A world in which only the fourth GET of a request (the third signed attempt) is fulfilled. -/
def thirdAttemptWorld : World :=
  { deadWorld with
    httpGet := fun n _ =>
      if n = 3 then some { contentType := none, contentLength := none, data := [1, 2, 3, 4] }
      else none }

/-- The world `liveWorld` with a document store that rejects `question.save()`. -/
def brokenSaveWorld : World :=
  { liveWorld with saveError := some "save failed" }

/-- An unverified question with a file in cloud storage, downloaded seven times so far. -/
def samplePaper : Question :=
  { id := "q1"
    uploadedBy := "u1"
    fileUrl := "https://res.cloudinary.com/demo/raw/upload/v1712/question-bank/file-17.pdf"
    fileName := "paper.pdf"
    cloudinaryPublicId := "question-bank/file-17"
    downloads := 7 }

/-- The record `samplePaper` with its `fileName` emptied. -/
def namelessPaper : Question :=
  { samplePaper with fileName := "" }

/-- The record `samplePaper` with a `fileUrl` on another host. -/
def foreignPaper : Question :=
  { samplePaper with fileUrl := "https://files.example.org/papers/paper.pdf" }

/-- The uploader of the sample questions, with three downloads so far. -/
def owner : User :=
  { id := "u1", username := "asha", downloadsCount := 3 }

/-- A student who uploaded none of the sample questions. -/
def stranger : User :=
  { id := "u2", username := "ravi" }

/-! ## Response headers, version segments, further samples -/

/-- Node's `res.getHeader(name)`: the value `res.setHeader` stored under the name. -/
def Res.getHeader (r : Res) (name : String) : Option String :=
  (r.headers.find? (fun h => h.1 == name)).map (fun h => h.2)

/-- The action is the generation of a signed URL. -/
def Action.isSigning : Action → Bool
  | Action.signUrl _ _ => true
  | _ => false

/-- The text `l` starts with a version segment: a slash, the letter v, the non-empty digit
string `ds`, a slash. -/
def StartsWithVersion (l ds : List Char) : Prop :=
  ds ≠ [] ∧ (∀ c ∈ ds, c.isDigit = true) ∧ ∃ rest, l = '/' :: 'v' :: (ds ++ '/' :: rest)

/-- The text `l` holds a version segment somewhere. -/
def HasVersion (l : List Char) : Prop :=
  ∃ pre suf ds, l = pre ++ suf ∧ StartsWithVersion suf ds

/-- The first version segment of `l` has the digits `ds`: one starts after `pre`, and none
starts at an earlier place. -/
def FirstVersion (l ds : List Char) : Prop :=
  ∃ pre suf, l = pre ++ suf ∧ StartsWithVersion suf ds ∧
    ∀ pre2 suf2 ds2, l = pre2 ++ suf2 → pre2.length < pre.length → ¬ StartsWithVersion suf2 ds2

/-- A world in which the first GET of a request is fulfilled with a three-byte PDF that comes
without a content-length header (a chunked upstream response); every other GET is rejected. -/
def chunkedWorld : World :=
  { deadWorld with
    httpGet := fun n _ =>
      if n = 0 then
        some { contentType := some "application/pdf", contentLength := none, data := [37, 80, 68] }
      else none }

/-- The record `samplePaper` with a dot-less `fileName` and a `fileUrl` whose last path
segment ends in a dot. -/
def dotUrlPaper : Question :=
  { samplePaper with
    fileName := "paper"
    fileUrl := "https://res.cloudinary.com/demo/raw/upload/v1712/question-bank/file-17." }

/-- The record `samplePaper` after an admin verified it. -/
def verifiedPaper : Question :=
  { samplePaper with isVerified := true, verifiedBy := some "u9", verifiedAt := some 1700000000000 }

/-! ## Concurrent requests on the question counter (lines 482 and 508) -/

/-- Where a request stands between `Question.findById` (line 482) and the end of
`question.incrementDownloads()` (line 508): not started, holding the document it loaded, or
past the save. -/
inductive Progress where
  | waiting
  | loaded (doc : Question)
  | done
  deriving DecidableEq, Repr

/-- Next store operation of a request. A waiting request runs `findById` and keeps the
document it read. A request that holds a document runs `incrementDownloads` on it: the
in-memory `downloads` is raised by one and `save()` writes that value to the stored record. -/
def counterStep (stored : Question) : Progress → Question × Progress
  | Progress.waiting => (stored, Progress.loaded stored)
  | Progress.loaded doc =>
    ({ stored with downloads := (incrementDownloads doc).downloads }, Progress.done)
  | Progress.done => (stored, Progress.done)

/-- Concurrent requests under a schedule: each entry names the request that performs its next
store operation; the `await` points of the handler are where requests interleave. -/
def runSchedule : List Nat → Question × List Progress → Question × List Progress
  | [], state => state
  | i :: rest, (stored, requests) =>
    match requests[i]? with
    | none => runSchedule rest (stored, requests)
    | some p => runSchedule rest ((counterStep stored p).1, requests.set i (counterStep stored p).2)

/-- The update `{ $inc: { downloadsCount: 1 } }` under a schedule: one store operation per
request, applied to the stored value. -/
def runIncrements : List Nat → User → User
  | [], u => u
  | _ :: rest, u => runIncrements rest (incDownloadsCount u)

/-! ## The update route (lines 397-446) -/

/-- The file multer leaves in `req.file`. -/
structure UploadedFile where
  path : String
  originalname : String
  filename : String
  deriving DecidableEq, Repr

/-- Fields of the question schema a `PUT /:id` body can carry, as Mongoose casts them; `none`
stands for a field the body does not have. The descriptive fields that
`validateQuestionUpdate` checks (title, subject, ...) are left out. -/
structure UpdateBody where
  uploadedBy : Option String := none
  isVerified : Option Bool := none
  verifiedBy : Option String := none
  verifiedAt : Option Nat := none
  fileUrl : Option String := none
  fileName : Option String := none
  cloudinaryPublicId : Option String := none
  downloads : Option Nat := none
  views : Option Nat := none
  deriving DecidableEq, Repr

/-- Result of an update request: the stored record afterwards, the status and message of the
response, and the public ids handed to `cloudinary.uploader.destroy`. -/
structure UpdateOutcome where
  question : Option Question
  status : Nat
  message : String
  destroyed : List String
  deriving DecidableEq, Repr

/-- The object `updateData` (lines 410-426): the body, with the three file fields replaced
when a file was uploaded. -/
def updateData (body : UpdateBody) (file : Option UploadedFile) : UpdateBody :=
  match file with
  | some f =>
    { body with
      fileUrl := some f.path
      fileName := some f.originalname
      cloudinaryPublicId := some f.filename }
  | none => body

/-- The call `Question.findByIdAndUpdate(id, updateData)` on the stored record: every field
the update carries is set. -/
def applyUpdate (q : Question) (u : UpdateBody) : Question :=
  { q with
    uploadedBy := u.uploadedBy.getD q.uploadedBy
    isVerified := u.isVerified.getD q.isVerified
    verifiedBy := match u.verifiedBy with
      | some v => some v
      | none => q.verifiedBy
    verifiedAt := match u.verifiedAt with
      | some t => some t
      | none => q.verifiedAt
    fileUrl := u.fileUrl.getD q.fileUrl
    fileName := u.fileName.getD q.fileName
    cloudinaryPublicId := u.cloudinaryPublicId.getD q.cloudinaryPublicId
    downloads := u.downloads.getD q.downloads
    views := u.views.getD q.views }

/-- The handler `router.put('/:id', auth, upload.single('file'), validateQuestionUpdate, ...)`
once the three middlewares have passed. `findError` and `updateError` are `some msg` when
`Question.findById` or `Question.findByIdAndUpdate` rejects. -/
def updateQuestion (findError updateError : Option String) (requester : User)
    (stored : Option Question) (body : UpdateBody) (file : Option UploadedFile) : UpdateOutcome :=
  match findError with
  | some _ =>
    { question := stored, status := 500, message := "Error updating question", destroyed := [] }
  | none =>
    match stored with
    | none => { question := none, status := 404, message := "Question not found", destroyed := [] }
    | some question =>
      if question.uploadedBy != requester.id && requester.role != "admin" then
        { question := stored, status := 403, message := "Not authorized to update this question"
          destroyed := [] }
      else
        let destroyed :=
          match file with
          | some _ =>
            if question.cloudinaryPublicId ≠ "" then [question.cloudinaryPublicId] else []
          | none => []
        match updateError with
        | some _ =>
          { question := stored, status := 500, message := "Error updating question"
            destroyed := destroyed }
        | none =>
          { question := some (applyUpdate question (updateData body file)), status := 200
            message := "Question updated successfully", destroyed := destroyed }

/-! ## The create, view, verify and delete routes -/

/-- The document `POST /` saves (lines 283-327), as far as the modelled fields go, under the id
the store assigns. `questionData` is built from named fields of the body and from
`req.user.id`; nothing else of the body is read, and the schema defaults fill the rest. -/
def createQuestion (requester : User) (_body : UpdateBody) (file : Option UploadedFile)
    (id : String) : Question :=
  let questionData : Question := { id := id, uploadedBy := requester.id }
  match file with
  | some f =>
    { questionData with
      fileUrl := f.path
      fileName := f.originalname
      cloudinaryPublicId := f.filename }
  | none => questionData

/-- The method `incrementViews` of `Question.js` (lines 121-124), the in-memory part. -/
def incrementViews (q : Question) : Question :=
  { q with views := q.views + 1 }

/-- The method `verify` of `Question.js` (lines 127-132), the in-memory part; `now` is the
value of `new Date()`. -/
def verify (adminId : String) (now : Nat) (q : Question) : Question :=
  { q with isVerified := true, verifiedBy := some adminId, verifiedAt := some now }

/-- Result of a view request: the stored record afterwards and the status of the response. -/
structure ViewOutcome where
  question : Option Question
  status : Nat
  deriving DecidableEq, Repr

/-- The handler `router.get('/:id', optionalAuth, ...)` (lines 163-180). `findError` and
`saveError` are `some msg` when `Question.findById` or `question.save()` rejects. -/
def viewQuestion (findError saveError : Option String) (stored : Option Question) :
    ViewOutcome :=
  match findError with
  | some _ => { question := stored, status := 500 }
  | none =>
    match stored with
    | none => { question := none, status := 404 }
    | some question =>
      match saveError with
      | some _ => { question := stored, status := 500 }
      | none => { question := some (incrementViews question), status := 200 }

/-- The test of the middleware `adminAuth` (auth.js line 45) negated: the user is let
through. -/
def adminAuthAdmits (u : User) : Bool :=
  !(!u.isAdmin && u.role != "admin")

/-- The route `router.patch('/:id/verify', adminAuth, ...)` (lines 624-656) once `auth` has
set `req.user`; `now` is the value of `new Date()` inside `verify`. -/
def verifyQuestion (findError saveError : Option String) (requester : User) (now : Nat)
    (stored : Option Question) : UpdateOutcome :=
  if !requester.isAdmin && requester.role != "admin" then
    { question := stored, status := 403, message := "Access denied. Admin privileges required."
      destroyed := [] }
  else
    match findError with
    | some _ =>
      { question := stored, status := 500, message := "Error verifying question", destroyed := [] }
    | none =>
      match stored with
      | none =>
        { question := none, status := 404, message := "Question not found", destroyed := [] }
      | some question =>
        match saveError with
        | some _ =>
          { question := stored, status := 500, message := "Error verifying question"
            destroyed := [] }
        | none =>
          { question := some (verify requester.id now question), status := 200
            message := "Question verified successfully", destroyed := [] }

/-- The handler `router.delete('/:id', auth, ...)` (lines 449-477). `findError` and
`deleteError` are `some msg` when `Question.findById` or `Question.findByIdAndDelete`
rejects. -/
def deleteQuestion (findError deleteError : Option String) (requester : User)
    (stored : Option Question) : UpdateOutcome :=
  match findError with
  | some _ =>
    { question := stored, status := 500, message := "Error deleting question", destroyed := [] }
  | none =>
    match stored with
    | none => { question := none, status := 404, message := "Question not found", destroyed := [] }
    | some question =>
      if question.uploadedBy != requester.id && requester.role != "admin" then
        { question := stored, status := 403, message := "Not authorized to delete this question"
          destroyed := [] }
      else
        let destroyed :=
          if question.cloudinaryPublicId ≠ "" then [question.cloudinaryPublicId] else []
        match deleteError with
        | some _ =>
          { question := stored, status := 500, message := "Error deleting question"
            destroyed := destroyed }
        | none =>
          { question := none, status := 200, message := "Question deleted successfully"
            destroyed := destroyed }

/-- The fields `verifiedBy` and `verifiedAt` are both set. -/
def verifierRecorded (q : Question) : Bool :=
  q.verifiedBy.isSome && q.verifiedAt.isSome

/-! ## The upload file filter (lines 25-81) -/

/-- The file object multer hands to `fileFilter`. -/
structure MulterFile where
  originalname : String
  mimetype : String
  deriving DecidableEq, Repr

/-- The alternatives of the regular expression `allowedTypes` (line 33). -/
def allowedTypes : List String :=
  ["pdf", "doc", "docx", "txt", "rtf", "odt", "xls", "xlsx", "ppt", "pptx",
   "jpg", "jpeg", "png", "gif", "webp", "bmp", "tiff", "tif", "svg", "ico"]

/-- The call `allowedTypes.test(s)`: the expression has no anchors, so it matches when one of
its alternatives occurs somewhere in `s`. -/
def allowedTypesTest (s : String) : Bool :=
  allowedTypes.any (fun alternative => includes s alternative)

/-- The array `allowedMimeTypes` (lines 37-67). -/
def allowedMimeTypes : List String :=
  ["application/pdf", "application/msword",
   "application/vnd.openxmlformats-officedocument.wordprocessingml.document",
   "application/vnd.oasis.opendocument.text", "application/rtf", "text/plain", "text/rtf",
   "application/vnd.ms-excel",
   "application/vnd.openxmlformats-officedocument.spreadsheetml.sheet",
   "application/vnd.ms-powerpoint",
   "application/vnd.openxmlformats-officedocument.presentationml.presentation",
   "image/jpeg", "image/jpg", "image/png", "image/gif", "image/webp", "image/bmp",
   "image/tiff", "image/tif", "image/svg+xml", "image/x-icon", "image/vnd.microsoft.icon"]

/-- The constant `extname` (line 34). -/
def extname (toLowerCase : String → String) (file : MulterFile) : Bool :=
  allowedTypesTest (toLowerCase (splitPop '.' file.originalname))

/-- The callback `fileFilter` (lines 25-81): `Except.ok true` for `cb(null, true)`, the
message of the error for `cb(new Error(...))`. -/
def fileFilter (toLowerCase : String → String) (file : MulterFile) : Except String Bool :=
  if allowedMimeTypes.contains file.mimetype && extname toLowerCase file then
    Except.ok true
  else
    Except.error
      "Unsupported file type! Allowed formats: PDF, DOC, DOCX, TXT, RTF, ODT, XLS, XLSX, PPT, PPTX, JPG, JPEG, PNG, GIF, WEBP, BMP, TIFF, SVG, ICO"

/-! ## Pagination of the user lists (users.js lines 12-33 and 98-131) -/

/-- JavaScript `parseInt(v) || d`: `parsed` is the integer `parseInt` returns, `none` for
NaN; NaN and 0 fall back to `d`. -/
def parsedOr (parsed : Option Int) (d : Int) : Int :=
  match parsed with
  | some n => if n = 0 then d else n
  | none => d

/-- The object `pagination` of the two user lists. -/
structure Pagination where
  currentPage : Int
  totalPages : Int
  totalUsers : Int
  hasNext : Bool
  hasPrev : Bool
  deriving DecidableEq, Repr

/-- What the list routes compute from the query and the count: the arguments of `skip` and
`limit` and the object `pagination`. -/
structure UsersPage where
  skip : Int
  limit : Int
  pagination : Pagination
  deriving DecidableEq, Repr

/-- Lines 12-14 and 26-32 (the same as lines 98-100 and 124-130): `parsedPage` and
`parsedLimit` are what `parseInt` returns for the two query values, `total` is the count of
matching users. The numbers are taken as exact integers and the quotient as a rational. -/
def usersPage (parsedPage parsedLimit : Option Int) (total : Int) : UsersPage :=
  let page := parsedOr parsedPage 1
  let limit := parsedOr parsedLimit 10
  let skip := (page - 1) * limit
  { skip := skip
    limit := limit
    pagination :=
      { currentPage := page
        totalPages := Int.ceil ((total : ℚ) / (limit : ℚ))
        totalUsers := total
        hasNext := decide (page * limit < total)
        hasPrev := decide (page > 1) } }

/-! ## Session time (sessionManager.js lines 24-32) -/

/-- The function `formatTimeRemaining`: `Math.floor` of a quotient is floor division, `%` is
the remainder that takes the sign of the dividend, and a number in a template is written in
decimal. -/
def formatTimeRemaining (timeRemaining : Int) : String :=
  let hours := Int.fdiv timeRemaining (1000 * 60 * 60)
  let minutes := Int.fdiv (Int.tmod timeRemaining (1000 * 60 * 60)) (1000 * 60)
  if hours > 0 then toString hours ++ "h " ++ toString minutes ++ "m"
  else toString minutes ++ "m"

/-! ## Further sample records -/

/-- An administrator, with both the role and the flag, as the script `createAdmin.js` makes
one. -/
def admin : User :=
  { id := "u9", username := "root", role := "admin", isAdmin := true }

/-- A second administrator. -/
def otherAdmin : User :=
  { id := "u8", username := "dean", role := "admin", isAdmin := true }

/-- A teacher whose record carries the flag `isAdmin` but not the role. -/
def flaggedTeacher : User :=
  { id := "u7", username := "meera", role := "teacher", isAdmin := true }

/-! ## Success of a strategy in the words of the specification (4.2) -/

/-- Specification 4.2, step 1: the direct fetch succeeds on a 2xx answer with a body. The
bytes of that answer, `none` when the GET of `fileUrl` is rejected (network error, non-2xx). -/
def directFetched (w : World) (q : Question) : Option Bytes :=
  (w.httpGet 0 q.fileUrl).map (fun fileResponse => fileResponse.data)

/-- Specification 4.2, step 2: attempt number `n` succeeds when the GET of its signed URL is
answered with a body. The bytes of that answer, `none` when the GET is rejected. -/
def attemptFetched (w : World) (q : Question) (n : Nat) (attempt : Attempt) : Option Bytes :=
  (w.httpGet (n + 1) (signedUrl w q n attempt)).map (fun signedResp => signedResp.data)

/-- The `k`-th strategy in the words of the specification, in the order direct fetch (0),
signed attempts one to four (1-4), local fallback (5): the body the strategy returns, `none`
when it fails or does not apply. A fetch strategy succeeds when its GET is fulfilled; the
signed attempts apply only to a non-empty `cloudinaryPublicId`, the local fallback succeeds
when `fileName` is non-empty and the file exists. -/
def fetchedBody (w : World) (q : Question) : Nat → Option Body
  | 0 => (directFetched w q).map Body.buffer
  | k + 1 =>
    match (attempts (fileExtension w q))[k]? with
    | some attempt =>
      if q.cloudinaryPublicId ≠ "" then (attemptFetched w q k attempt).map Body.buffer else none
    | none =>
      if k = 4 ∧ q.fileName ≠ "" ∧ w.existsSync (w.uploadsPath q.fileName) = true then
        some (Body.download (w.uploadsPath q.fileName) q.fileName)
      else none

/-- A world in which the first GET of a request is fulfilled with a three-byte PDF that comes
without content-type and without content-length, the second GET (the first signed attempt)
is fulfilled with two other bytes, and every later GET is rejected. -/
def chunkedThenSignedWorld : World :=
  { deadWorld with
    httpGet := fun n _ =>
      if n = 0 then some { contentType := none, contentLength := none, data := [37, 80, 68] }
      else if n = 1 then some { contentType := none, contentLength := none, data := [9, 9] }
      else none }

/-- A world in which the direct GET is rejected and every GET of a signed URL is fulfilled
with a four-byte PDF. -/
def signedWorld : World :=
  { deadWorld with
    httpGet := fun n _ =>
      if n = 0 then none
      else some { contentType := some "application/pdf", contentLength := some "4",
                  data := [1, 2, 3, 4] } }

/-- The record `samplePaper` uploaded under a name with a character above 0xff. -/
def unicodePaper : Question :=
  { samplePaper with fileName := "文.pdf" }

/-! ## Lemmas on the response helpers and on the blocks of the chain -/

theorem Res.setHeader_status_body {r r1 : Res} {name : String} {value : Option String}
    (h : r.setHeader name value = some r1) : r1.status = r.status ∧ r1.body = r.body := by
  unfold Res.setHeader at h
  split at h
  · cases h
  · split at h
    · cases h; exact ⟨rfl, rfl⟩
    · cases h

theorem Res.setHeaders_status_body (hs : List (String × Option String)) (r : Res) :
    (r.setHeaders hs).1.status = r.status ∧ (r.setHeaders hs).1.body = r.body := by
  induction hs generalizing r with
  | nil => exact ⟨rfl, rfl⟩
  | cons h rest ih =>
    obtain ⟨name, value⟩ := h
    unfold Res.setHeaders
    cases hset : r.setHeader name value with
    | none => exact ⟨rfl, rfl⟩
    | some r1 =>
      have h1 := Res.setHeader_status_body hset
      have h2 := ih r1
      simp only []
      exact ⟨h2.1.trans h1.1, h2.2.trans h1.2⟩

theorem Res.setHeaders_eq {hs : List (String × Option String)} {r r1 : Res} {b : Bool}
    (h : r.setHeaders hs = (r1, b)) : r1.status = r.status ∧ r1.body = r.body := by
  have := Res.setHeaders_status_body hs r
  rw [h] at this
  exact this

theorem Res.setHeaders_snd (hs : List (String × Option String)) (r : Res) :
    (r.setHeaders hs).2 = headersAccepted hs := by
  induction hs generalizing r with
  | nil => rfl
  | cons h rest ih =>
    obtain ⟨name, value⟩ := h
    unfold Res.setHeaders
    cases value with
    | none => simp [Res.setHeader, headersAccepted]
    | some v =>
      by_cases hv : validHeaderValue v = true
      · simp only [Res.setHeader, hv, if_true]
        rw [ih]
        simp [headersAccepted, hv]
      · simp [Res.setHeader, hv, headersAccepted]

theorem directFetch_fail (w : World) (q : Question) (x : Exchange)
    (h : directBytes w q = none) :
    (directFetch w q x).2 = false ∧ (directFetch w q x).1.sameReply x ∧
      (directFetch w q x).1.trace = x.trace ++ [Action.httpGet q.fileUrl] := by
  unfold directBytes at h
  unfold directFetch
  simp only [Exchange.log, Exchange.sameReply]
  cases hget : w.httpGet 0 q.fileUrl with
  | none => simp
  | some fileResponse =>
    rw [hget] at h
    simp only at h
    have hacc : headersAccepted (directHeaders q fileResponse) = false := by
      by_contra hc
      simp [hc] at h
    have hsnd := Res.setHeaders_snd (directHeaders q fileResponse) x.res
    rw [hacc] at hsnd
    simp only []
    split
    · next r hr => exact ⟨rfl, Res.setHeaders_eq hr, rfl⟩
    · next r hr => rw [hr] at hsnd; cases hsnd

theorem directFetch_ok (w : World) (q : Question) (x : Exchange) (d : Bytes)
    (h : directBytes w q = some d) :
    (directFetch w q x).2 = true ∧ (directFetch w q x).1.res.status = x.res.status ∧
      (directFetch w q x).1.res.body = Body.buffer d ∧
      (directFetch w q x).1.trace = x.trace ++ [Action.httpGet q.fileUrl] := by
  unfold directBytes at h
  unfold directFetch
  simp only [Exchange.log]
  cases hget : w.httpGet 0 q.fileUrl with
  | none => rw [hget] at h; cases h
  | some fileResponse =>
    rw [hget] at h
    simp only at h
    have hacc : headersAccepted (directHeaders q fileResponse) = true := by
      by_contra hc
      simp [hc] at h
    rw [hacc] at h
    simp only [if_true, Option.some.injEq] at h
    have hsnd := Res.setHeaders_snd (directHeaders q fileResponse) x.res
    rw [hacc] at hsnd
    simp only []
    split
    · next r hr => rw [hr] at hsnd; cases hsnd
    · next r hr => exact ⟨rfl, (Res.setHeaders_eq hr).1, by simp [Res.send, h], rfl⟩

theorem Exchange.sameReply_trans {a b c : Exchange} (h1 : a.sameReply b) (h2 : b.sameReply c) :
    a.sameReply c :=
  ⟨h1.1.trans h2.1, h1.2.trans h2.2⟩

theorem signedLoop_cons_fail (w : World) (q : Question) (a : Attempt) (rest : List Attempt)
    (n : Nat) (x : Exchange) (h : attemptBytes w q n a = none) :
    ∃ x1 : Exchange, x1.sameReply x ∧ x1.trace = x.trace ++ attemptActions w q n a ∧
      signedLoop w q (orElse q.fileName "") (fileExtension w q) (a :: rest) n x =
        signedLoop w q (orElse q.fileName "") (fileExtension w q) rest (n + 1) x1 := by
  unfold attemptBytes at h
  rw [signedLoop]
  simp only [Exchange.log, Exchange.sameReply, attemptActions, List.append_assoc,
    List.singleton_append]
  cases hget : w.httpGet (n + 1) (signedUrl w q n a) with
  | none =>
    exact ⟨{ res := x.res, trace := x.trace ++ [Action.signUrl q.cloudinaryPublicId
      (signOptions w q n a), Action.httpGet (signedUrl w q n a)] }, ⟨rfl, rfl⟩, rfl, rfl⟩
  | some signedResp =>
    rw [hget] at h
    simp only at h
    have hacc : headersAccepted
        (signedHeaders (orElse q.fileName "") (fileExtension w q) signedResp) = false := by
      by_contra hc
      simp [hc] at h
    have hsnd := Res.setHeaders_snd
      (signedHeaders (orElse q.fileName "") (fileExtension w q) signedResp) x.res
    rw [hacc] at hsnd
    simp only []
    split
    · next r hr =>
      exact ⟨{ res := r, trace := x.trace ++ [Action.signUrl q.cloudinaryPublicId
        (signOptions w q n a), Action.httpGet (signedUrl w q n a)] },
        Res.setHeaders_eq hr, rfl, rfl⟩
    · next r hr => rw [hr] at hsnd; cases hsnd

theorem signedLoop_cons_ok (w : World) (q : Question) (a : Attempt) (rest : List Attempt)
    (n : Nat) (x : Exchange) (d : Bytes) (h : attemptBytes w q n a = some d) :
    (signedLoop w q (orElse q.fileName "") (fileExtension w q) (a :: rest) n x).2 = true ∧
    (signedLoop w q (orElse q.fileName "") (fileExtension w q) (a :: rest) n x).1.res.status
      = x.res.status ∧
    (signedLoop w q (orElse q.fileName "") (fileExtension w q) (a :: rest) n x).1.res.body
      = Body.buffer d ∧
    (signedLoop w q (orElse q.fileName "") (fileExtension w q) (a :: rest) n x).1.trace
      = x.trace ++ attemptActions w q n a := by
  unfold attemptBytes at h
  rw [signedLoop]
  simp only [Exchange.log, attemptActions, List.append_assoc, List.singleton_append]
  cases hget : w.httpGet (n + 1) (signedUrl w q n a) with
  | none => rw [hget] at h; cases h
  | some signedResp =>
    rw [hget] at h
    simp only at h
    have hacc : headersAccepted
        (signedHeaders (orElse q.fileName "") (fileExtension w q) signedResp) = true := by
      by_contra hc
      simp [hc] at h
    rw [hacc] at h
    simp only [if_true, Option.some.injEq] at h
    have hsnd := Res.setHeaders_snd
      (signedHeaders (orElse q.fileName "") (fileExtension w q) signedResp) x.res
    rw [hacc] at hsnd
    simp only []
    split
    · next r hr => rw [hr] at hsnd; cases hsnd
    · next r hr => exact ⟨rfl, (Res.setHeaders_eq hr).1, by simp [Res.send, h], rfl⟩

theorem signedLoop_all_fail (w : World) (q : Question) (l : List Attempt) (n : Nat)
    (x : Exchange)
    (h : ∀ j a, l[j]? = some a → attemptBytes w q (n + j) a = none) :
    (signedLoop w q (orElse q.fileName "") (fileExtension w q) l n x).2 = false ∧
    (signedLoop w q (orElse q.fileName "") (fileExtension w q) l n x).1.sameReply x ∧
    (signedLoop w q (orElse q.fileName "") (fileExtension w q) l n x).1.trace
      = x.trace ++ attemptsActions w q l n := by
  induction l generalizing n x with
  | nil => simp [signedLoop, attemptsActions, Exchange.sameReply]
  | cons a rest ih =>
    have h0 : attemptBytes w q n a = none := by simpa using h 0 a (by simp)
    obtain ⟨x1, hsame, htr, heq⟩ := signedLoop_cons_fail w q a rest n x h0
    have hrest : ∀ j b, rest[j]? = some b → attemptBytes w q (n + 1 + j) b = none := by
      intro j b hj
      have := h (j + 1) b (by simpa using hj)
      rw [show n + 1 + j = n + (j + 1) by omega]
      exact this
    have := ih (n + 1) x1 hrest
    rw [heq]
    refine ⟨this.1, Exchange.sameReply_trans this.2.1 hsame, ?_⟩
    rw [this.2.2, htr, attemptsActions, List.append_assoc]

theorem signedLoop_first_ok (w : World) (q : Question) (l : List Attempt) (n : Nat)
    (x : Exchange) (i : Nat) (a : Attempt) (d : Bytes)
    (hi : l[i]? = some a) (hok : attemptBytes w q (n + i) a = some d)
    (h : ∀ j b, j < i → l[j]? = some b → attemptBytes w q (n + j) b = none) :
    (signedLoop w q (orElse q.fileName "") (fileExtension w q) l n x).2 = true ∧
    (signedLoop w q (orElse q.fileName "") (fileExtension w q) l n x).1.res.status
      = x.res.status ∧
    (signedLoop w q (orElse q.fileName "") (fileExtension w q) l n x).1.res.body
      = Body.buffer d ∧
    (signedLoop w q (orElse q.fileName "") (fileExtension w q) l n x).1.trace
      = x.trace ++ attemptsActions w q (l.take (i + 1)) n := by
  induction l generalizing n x i with
  | nil => simp at hi
  | cons c rest ih =>
    cases i with
    | zero =>
      simp only [List.getElem?_cons_zero, Option.some.injEq] at hi
      subst hi
      have := signedLoop_cons_ok w q c rest n x d (by simpa using hok)
      refine ⟨this.1, this.2.1, this.2.2.1, ?_⟩
      rw [this.2.2.2]
      simp [attemptsActions]
    | succ i =>
      have h0 : attemptBytes w q n c = none := by simpa using h 0 c (by omega) (by simp)
      obtain ⟨x1, hsame, htr, heq⟩ := signedLoop_cons_fail w q c rest n x h0
      have hi1 : rest[i]? = some a := by simpa using hi
      have hok1 : attemptBytes w q (n + 1 + i) a = some d := by
        rw [show n + 1 + i = n + (i + 1) by omega]; exact hok
      have hrest : ∀ j b, j < i → rest[j]? = some b →
          attemptBytes w q (n + 1 + j) b = none := by
        intro j b hlt hj
        have := h (j + 1) b (by omega) (by simpa using hj)
        rw [show n + 1 + j = n + (j + 1) by omega]
        exact this
      have := ih (n + 1) x1 i hi1 hok1 hrest
      rw [heq]
      refine ⟨this.1, this.2.1.trans hsame.1, this.2.2.1, ?_⟩
      rw [this.2.2.2, htr]
      simp [attemptsActions, List.append_assoc]

theorem localFallback_fail (w : World) (q : Question) (x : Exchange)
    (h : ¬ (q.fileName ≠ "" ∧ w.existsSync (w.uploadsPath q.fileName) = true)) :
    (localFallback w q x).2 = false ∧ (localFallback w q x).1.sameReply x ∧
      (localFallback w q x).1.trace = x.trace ++
        (if q.fileName ≠ "" then [Action.existsSync (w.uploadsPath q.fileName)] else []) := by
  unfold localFallback
  by_cases hn : q.fileName = ""
  · simp [hn, Exchange.sameReply]
  · have he : w.existsSync (w.uploadsPath q.fileName) = false := by
      cases hv : w.existsSync (w.uploadsPath q.fileName) with
      | false => rfl
      | true => exact absurd ⟨hn, hv⟩ h
    simp [hn, he, orElse, Exchange.sameReply, Exchange.log]

theorem localFallback_ok (w : World) (q : Question) (x : Exchange)
    (h : q.fileName ≠ "" ∧ w.existsSync (w.uploadsPath q.fileName) = true) :
    (localFallback w q x).2 = true ∧ (localFallback w q x).1.res.status = x.res.status ∧
      (localFallback w q x).1.res.body = Body.download (w.uploadsPath q.fileName) q.fileName ∧
      (localFallback w q x).1.trace = x.trace ++ [Action.existsSync (w.uploadsPath q.fileName)] := by
  unfold localFallback
  simp [h.1, h.2, orElse, Exchange.log, Res.download]

/-! ## The handler, branch by branch -/

theorem retrievalChain_incrementDownloads (w : World) (q : Question) (x : Exchange) :
    retrievalChain w (incrementDownloads q) x = retrievalChain w q x := rfl

theorem canDownload_eq_true_iff (u : User) (q : Question) :
    canDownload u q = true ↔ (q.uploadedBy = u.id ∨ u.role = "admin" ∨ q.isVerified = true) := by
  simp only [canDownload, isOwner, isAdmin]
  cases hv : q.isVerified <;> by_cases h1 : q.uploadedBy = u.id <;>
    by_cases h2 : u.role = "admin" <;> simp [h1, h2]

theorem download_denied (w : World) (s : Store) (q : Question)
    (hfind : w.findError = none) (hq : s.question = some q) (hfile : q.fileUrl ≠ "")
    (hgate : canDownload s.requester q = false) :
    download w s =
      { store := s
        res := Res.json {} 403
          "This question is not verified yet. Only verified questions can be downloaded by other users."
        trace := [] } := by
  unfold canDownload at hgate
  simp only [Bool.not_eq_false'] at hgate
  unfold download
  simp only [hfind, hq, hfile, if_false, hgate, if_true]

theorem download_save_error (w : World) (s : Store) (q : Question) (e : String)
    (hfind : w.findError = none) (hq : s.question = some q) (hfile : q.fileUrl ≠ "")
    (hgate : canDownload s.requester q = true) (hsave : w.saveError = some e) :
    download w s = internalError s e := by
  unfold canDownload at hgate
  simp only [Bool.not_eq_true'] at hgate
  unfold download
  simp [hfind, hq, hfile, hgate, hsave]

theorem download_user_error (w : World) (s : Store) (q : Question) (e : String)
    (hfind : w.findError = none) (hq : s.question = some q) (hfile : q.fileUrl ≠ "")
    (hgate : canDownload s.requester q = true) (hsave : w.saveError = none)
    (huser : w.userUpdateError = some e) :
    download w s = internalError { s with question := some (incrementDownloads q) } e := by
  unfold canDownload at hgate
  simp only [Bool.not_eq_true'] at hgate
  unfold download
  simp [hfind, hq, hfile, hgate, hsave, huser]

theorem download_unsupported (w : World) (s : Store) (q : Question)
    (hfind : w.findError = none) (hq : s.question = some q) (hfile : q.fileUrl ≠ "")
    (hgate : canDownload s.requester q = true) (hsave : w.saveError = none)
    (huser : w.userUpdateError = none) (hurl : includes q.fileUrl "cloudinary.com" = false) :
    download w s =
      { store := { question := some (incrementDownloads q)
                   requester := incDownloadsCount s.requester }
        res := Res.json {} 404 "File format not supported for download"
        trace := [] } := by
  unfold canDownload at hgate
  simp only [Bool.not_eq_true'] at hgate
  have hurl1 : includes (incrementDownloads q).fileUrl "cloudinary.com" = false := hurl
  unfold download
  simp [hfind, hq, hfile, hgate, hsave, huser, hurl1]

theorem download_chain (w : World) (s : Store) (q : Question)
    (hfind : w.findError = none) (hq : s.question = some q) (hfile : q.fileUrl ≠ "")
    (hgate : canDownload s.requester q = true) (hsave : w.saveError = none)
    (huser : w.userUpdateError = none) (hurl : includes q.fileUrl "cloudinary.com" = true) :
    download w s =
      { store := { question := some (incrementDownloads q)
                   requester := incDownloadsCount s.requester }
        res := (retrievalChain w q {}).res
        trace := (retrievalChain w q {}).trace } := by
  unfold canDownload at hgate
  simp only [Bool.not_eq_true'] at hgate
  have hurl1 : includes (incrementDownloads q).fileUrl "cloudinary.com" = true := hurl
  unfold download
  simp [hfind, hq, hfile, hgate, hsave, huser, hurl1, retrievalChain_incrementDownloads]

theorem directFetch_status_trace (w : World) (q : Question) (x : Exchange) :
    (directFetch w q x).1.res.status = x.res.status ∧
      (directFetch w q x).1.trace = x.trace ++ [Action.httpGet q.fileUrl] := by
  cases h : directBytes w q with
  | none => exact ⟨(directFetch_fail w q x h).2.1.1, (directFetch_fail w q x h).2.2⟩
  | some d => exact ⟨(directFetch_ok w q x d h).2.1, (directFetch_ok w q x d h).2.2.2⟩

theorem signedLoop_status_trace (w : World) (q : Question) (l : List Attempt) (n : Nat)
    (x : Exchange) :
    (signedLoop w q (orElse q.fileName "") (fileExtension w q) l n x).1.res.status
        = x.res.status ∧
      ∃ t, (signedLoop w q (orElse q.fileName "") (fileExtension w q) l n x).1.trace
        = x.trace ++ t := by
  induction l generalizing n x with
  | nil => exact ⟨rfl, [], by simp [signedLoop]⟩
  | cons a rest ih =>
    cases h : attemptBytes w q n a with
    | none =>
      obtain ⟨x1, hsame, htr, heq⟩ := signedLoop_cons_fail w q a rest n x h
      obtain ⟨hst, t, ht⟩ := ih (n + 1) x1
      rw [heq]
      exact ⟨hst.trans hsame.1, attemptActions w q n a ++ t, by rw [ht, htr, List.append_assoc]⟩
    | some d =>
      have := signedLoop_cons_ok w q a rest n x d h
      exact ⟨this.2.1, _, this.2.2.2⟩

theorem signedFallback_status_trace (w : World) (q : Question) (x : Exchange) :
    (signedFallback w q x).1.res.status = x.res.status ∧
      ∃ t, (signedFallback w q x).1.trace = x.trace ++ t := by
  unfold signedFallback
  split
  · exact signedLoop_status_trace w q _ 0 x
  · exact ⟨rfl, [], by simp⟩

theorem localFallback_status_trace (w : World) (q : Question) (x : Exchange) :
    (localFallback w q x).1.res.status = x.res.status ∧
      ∃ t, (localFallback w q x).1.trace = x.trace ++ t := by
  by_cases h : q.fileName ≠ "" ∧ w.existsSync (w.uploadsPath q.fileName) = true
  · exact ⟨(localFallback_ok w q x h).2.1, _, (localFallback_ok w q x h).2.2.2⟩
  · exact ⟨(localFallback_fail w q x h).2.1.1, _, (localFallback_fail w q x h).2.2⟩

theorem retrievalChain_status_trace (w : World) (q : Question) (x : Exchange) :
    ((retrievalChain w q x).res.status = x.res.status ∨
      (retrievalChain w q x).res.status = 404) ∧
    ∃ t, (retrievalChain w q x).trace = x.trace ++ Action.httpGet q.fileUrl :: t := by
  obtain ⟨hs1, ht1⟩ := directFetch_status_trace w q x
  obtain ⟨hs2, t2, ht2⟩ := signedFallback_status_trace w q (directFetch w q x).1
  obtain ⟨hs3, t3, ht3⟩ :=
    localFallback_status_trace w q (signedFallback w q (directFetch w q x).1).1
  unfold retrievalChain
  rcases h1 : directFetch w q x with ⟨x1, b1⟩
  rw [h1] at hs1 ht1 hs2 ht2 hs3 ht3
  simp only at hs1 ht1 hs2 ht2 hs3 ht3
  cases b1 with
  | true => exact ⟨Or.inl hs1, [], by simpa using ht1⟩
  | false =>
    simp only
    rcases h2 : signedFallback w q x1 with ⟨x2, b2⟩
    rw [h2] at hs2 ht2 hs3 ht3
    simp only at hs2 ht2 hs3 ht3
    cases b2 with
    | true => exact ⟨Or.inl (hs2.trans hs1), t2, by rw [ht2, ht1]; simp⟩
    | false =>
      simp only
      rcases h3 : localFallback w q x2 with ⟨x3, b3⟩
      rw [h3] at hs3 ht3
      simp only at hs3 ht3
      cases b3 with
      | true =>
        exact ⟨Or.inl (hs3.trans (hs2.trans hs1)), t2 ++ t3, by rw [ht3, ht2, ht1]; simp⟩
      | false => exact ⟨Or.inr rfl, t2 ++ t3, by simp [ht3, ht2, ht1]⟩

theorem retrievalChain_direct_ok (w : World) (q : Question) (x : Exchange) (d : Bytes)
    (h : directBytes w q = some d) :
    (retrievalChain w q x).res.status = x.res.status ∧
      (retrievalChain w q x).res.body = Body.buffer d ∧
      (retrievalChain w q x).trace = x.trace ++ [Action.httpGet q.fileUrl] := by
  have hd := directFetch_ok w q x d h
  unfold retrievalChain
  rcases h1 : directFetch w q x with ⟨x1, b1⟩
  rw [h1] at hd
  simp only at hd
  obtain ⟨hb, hrest⟩ := hd
  subst hb
  exact hrest

theorem attemptBytes_none_of_get (w : World) (q : Question) (n : Nat) (a : Attempt)
    (h : w.httpGet (n + 1) (signedUrl w q n a) = none) : attemptBytes w q n a = none := by
  simp [attemptBytes, h]

theorem directBytes_none_of_get (w : World) (q : Question)
    (h : w.httpGet 0 q.fileUrl = none) : directBytes w q = none := by
  simp [directBytes, h]

/-- When the direct fetch and every signed attempt that is made fail, the chain arrives at the
local fallback with the reply untouched and the fetches logged in order. -/
theorem retrievalChain_after_fetches (w : World) (q : Question) (x : Exchange)
    (hd : directBytes w q = none)
    (hs : q.cloudinaryPublicId ≠ "" → ∀ j a, (attempts (fileExtension w q))[j]? = some a →
      attemptBytes w q j a = none) :
    ∃ x2 : Exchange, x2.sameReply x ∧
      x2.trace = x.trace ++ [Action.httpGet q.fileUrl] ++
        (if q.cloudinaryPublicId ≠ "" then attemptsActions w q (attempts (fileExtension w q)) 0
         else []) ∧
      retrievalChain w q x =
        (match localFallback w q x2 with
         | (x3, true) => x3
         | (x3, false) =>
           { x3 with res := x3.res.json 404 "File could not be retrieved from storage" }) := by
  have h1 := directFetch_fail w q x hd
  rcases hx1 : directFetch w q x with ⟨x1, b1⟩
  rw [hx1] at h1
  simp only at h1
  obtain ⟨hb1, hsame1, htr1⟩ := h1
  subst hb1
  by_cases hpid : q.cloudinaryPublicId = ""
  · refine ⟨x1, hsame1, by simp [htr1, hpid], ?_⟩
    unfold retrievalChain
    simp [hx1, signedFallback, hpid]
  · have h2 := signedLoop_all_fail w q (attempts (fileExtension w q)) 0 x1
      (fun j a hj => by simpa using hs hpid j a hj)
    rcases hx2 : signedLoop w q (orElse q.fileName "") (fileExtension w q)
      (attempts (fileExtension w q)) 0 x1 with ⟨x2, b2⟩
    rw [hx2] at h2
    simp only at h2
    obtain ⟨hb2, hsame2, htr2⟩ := h2
    subst hb2
    refine ⟨x2, Exchange.sameReply_trans hsame2 hsame1, by simp [htr2, htr1, hpid], ?_⟩
    unfold retrievalChain
    simp [hx1, signedFallback, hpid, hx2]

/-- When the direct fetch fails and attempt `i` is the first signed attempt that returns
bytes, the chain answers with those bytes after the attempts up to `i`. -/
theorem retrievalChain_signed_ok (w : World) (q : Question) (x : Exchange) (i : Nat)
    (a : Attempt) (d : Bytes) (hd : directBytes w q = none) (hpid : q.cloudinaryPublicId ≠ "")
    (hi : (attempts (fileExtension w q))[i]? = some a) (hok : attemptBytes w q i a = some d)
    (hprev : ∀ j b, j < i → (attempts (fileExtension w q))[j]? = some b →
      attemptBytes w q j b = none) :
    (retrievalChain w q x).res.status = x.res.status ∧
      (retrievalChain w q x).res.body = Body.buffer d ∧
      (retrievalChain w q x).trace = x.trace ++ [Action.httpGet q.fileUrl] ++
        attemptsActions w q ((attempts (fileExtension w q)).take (i + 1)) 0 := by
  have h1 := directFetch_fail w q x hd
  rcases hx1 : directFetch w q x with ⟨x1, b1⟩
  rw [hx1] at h1
  simp only at h1
  obtain ⟨hb1, hsame1, htr1⟩ := h1
  subst hb1
  have h2 := signedLoop_first_ok w q (attempts (fileExtension w q)) 0 x1 i a d hi
    (by simpa using hok) (fun j b hlt hj => by simpa using hprev j b hlt hj)
  rcases hx2 : signedLoop w q (orElse q.fileName "") (fileExtension w q)
    (attempts (fileExtension w q)) 0 x1 with ⟨x2, b2⟩
  rw [hx2] at h2
  simp only at h2
  obtain ⟨hb2, hst2, hbody2, htr2⟩ := h2
  subst hb2
  unfold retrievalChain
  simp only [hx1, signedFallback, hpid, ne_eq, not_false_eq_true, if_true, hx2]
  exact ⟨hst2.trans hsame1.1, hbody2, by rw [htr2, htr1]⟩

/-- Stored records after a request that reached the retrieval: both counters moved by one. -/
theorem download_store_of_reached (w : World) (s : Store) (q : Question)
    (hq : s.question = some q)
    (h : (download w s).res.body.isFile = true ∨
      (download w s).res.body = Body.json "File could not be retrieved from storage") :
    (download w s).store =
      { question := some (incrementDownloads q), requester := incDownloadsCount s.requester } := by
  cases hfind : w.findError with
  | some e =>
    exfalso
    unfold download at h
    simp [hfind, internalError, Body.isFile] at h
  | none =>
    by_cases hfile : q.fileUrl = ""
    · exfalso
      unfold download at h
      simp [hfind, hq, hfile, Res.json, Body.isFile] at h
    · cases hgate : canDownload s.requester q with
      | false =>
        exfalso
        rw [download_denied w s q hfind hq hfile hgate] at h
        simp [Res.json, Body.isFile] at h
      | true =>
        cases hsave : w.saveError with
        | some e =>
          exfalso
          rw [download_save_error w s q e hfind hq hfile hgate hsave] at h
          simp [internalError, Body.isFile] at h
        | none =>
          cases huser : w.userUpdateError with
          | some e =>
            exfalso
            rw [download_user_error w s q e hfind hq hfile hgate hsave huser] at h
            simp [internalError, Body.isFile] at h
          | none =>
            cases hurl : includes q.fileUrl "cloudinary.com" with
            | false =>
              exfalso
              rw [download_unsupported w s q hfind hq hfile hgate hsave huser hurl] at h
              simp [Res.json, Body.isFile] at h
            | true => rw [download_chain w s q hfind hq hfile hgate hsave huser hurl]

/-! ## The claims -/

/-- C1: for an existing question with a non-empty `fileUrl` the handler answers 403 exactly
when the requester is not the uploader, is not an admin and the question is not verified; in
every other row of the truth table over owner, admin, verified the request passes the gate. -/
theorem download_gate_truth_table (w : World) (s : Store) (q : Question)
    (hfind : w.findError = none) (hq : s.question = some q) (hfile : q.fileUrl ≠ "") :
    ((download w s).res.status ≠ 403 ↔
      (q.uploadedBy = s.requester.id ∨ s.requester.role = "admin" ∨ q.isVerified = true)) ∧
    ((download w s).res.status = 403 ↔
      (isOwner s.requester q = false ∧ isAdmin s.requester = false ∧ q.isVerified = false)) := by
  have key : (download w s).res.status = 403 ↔ canDownload s.requester q = false := by
    cases hgate : canDownload s.requester q with
    | false => rw [download_denied w s q hfind hq hfile hgate]; simp [Res.json]
    | true =>
      refine ⟨fun h403 => absurd h403 ?_, fun hc => by cases hc⟩
      cases hsave : w.saveError with
      | some e =>
        rw [download_save_error w s q e hfind hq hfile hgate hsave]; simp [internalError]
      | none =>
        cases huser : w.userUpdateError with
        | some e =>
          rw [download_user_error w s q e hfind hq hfile hgate hsave huser]
          simp [internalError]
        | none =>
          cases hurl : includes q.fileUrl "cloudinary.com" with
          | false =>
            rw [download_unsupported w s q hfind hq hfile hgate hsave huser hurl]
            simp [Res.json]
          | true =>
            rw [download_chain w s q hfind hq hfile hgate hsave huser hurl]
            rcases (retrievalChain_status_trace w q {}).1 with h | h <;> simp [h]
  constructor
  · rw [← canDownload_eq_true_iff, Ne, key]; simp
  · rw [key]
    simp only [canDownload]
    cases isOwner s.requester q <;> cases isAdmin s.requester <;> cases q.isVerified <;> simp

/-- Witness of C1: a stranger asking for the unverified sample paper is denied, its owner is
not. -/
theorem download_gate_truth_table_witness :
    (download deadWorld { question := some samplePaper, requester := stranger }).res.status = 403 ∧
    (download deadWorld { question := some samplePaper, requester := owner }).res.status ≠ 403 :=
  ⟨(download_gate_truth_table deadWorld { question := some samplePaper, requester := stranger }
      samplePaper rfl rfl (by decide)).2.mpr (by decide),
   (download_gate_truth_table deadWorld { question := some samplePaper, requester := owner }
      samplePaper rfl rfl (by decide)).1.mpr (Or.inl (by decide))⟩

/-- C2: a request the gate denies (not owner, not admin, question not verified) is answered
403 and performs no storage action: no GET, no signed-URL generation, no disk lookup; the
stored records are left as they were. -/
theorem denied_request_touches_nothing (w : World) (s : Store) (q : Question)
    (hfind : w.findError = none) (hq : s.question = some q) (hfile : q.fileUrl ≠ "")
    (howner : q.uploadedBy ≠ s.requester.id) (hadmin : s.requester.role ≠ "admin")
    (hver : q.isVerified = false) :
    (download w s).res.status = 403 ∧ (download w s).trace = [] ∧ (download w s).store = s := by
  have hgate : canDownload s.requester q = false := by
    cases h : canDownload s.requester q with
    | false => rfl
    | true =>
      rcases (canDownload_eq_true_iff _ _).mp h with h1 | h1 | h1
      · exact absurd h1 howner
      · exact absurd h1 hadmin
      · rw [hver] at h1; cases h1
  rw [download_denied w s q hfind hq hfile hgate]
  exact ⟨rfl, rfl, rfl⟩

/-- Witness of C2: a stranger asks for the unverified sample paper while the first GET would
be fulfilled. -/
theorem denied_request_touches_nothing_witness :
    (download liveWorld { question := some samplePaper, requester := stranger }).res.status = 403 ∧
    (download liveWorld { question := some samplePaper, requester := stranger }).trace = [] ∧
    (download liveWorld { question := some samplePaper, requester := stranger }).store
      = { question := some samplePaper, requester := stranger } :=
  denied_request_touches_nothing liveWorld { question := some samplePaper, requester := stranger }
    samplePaper rfl rfl (by decide) (by decide) (by decide) rfl

/-- C3: whoever asks, when the lookup finds no question or the question has an empty
`fileUrl` the answer is 404, no storage action is performed and no record changes; the gate
is not consulted, so the 404 comes before any 403. -/
theorem missing_file_is_not_found (w : World) (s : Store) (hfind : w.findError = none)
    (h : s.question = none ∨ ∃ q, s.question = some q ∧ q.fileUrl = "") :
    (download w s).res.status = 404 ∧ (download w s).trace = [] ∧ (download w s).store = s := by
  rcases h with h | ⟨q, hq, hfile⟩
  · unfold download
    simp [hfind, h, Res.json]
  · unfold download
    simp [hfind, hq, hfile, Res.json]

/-- Witness of C3: a stranger asks for an unverified question without a file. -/
theorem missing_file_is_not_found_witness :
    (download liveWorld
      { question := some { samplePaper with fileUrl := "" }, requester := stranger }).res.status
      = 404 ∧
    (download liveWorld
      { question := some { samplePaper with fileUrl := "" }, requester := stranger }).trace = [] ∧
    (download liveWorld
      { question := some { samplePaper with fileUrl := "" }, requester := stranger }).store
      = { question := some { samplePaper with fileUrl := "" }, requester := stranger } :=
  missing_file_is_not_found liveWorld
    { question := some { samplePaper with fileUrl := "" }, requester := stranger } rfl
    (Or.inr ⟨{ samplePaper with fileUrl := "" }, rfl, rfl⟩)

/-- Counterexample to C4: the owner asks for the sample paper in a world where every strategy
fails; the answer is the 404 of the exhausted chain, yet `downloads` went from 7 to 8 and
`downloadsCount` from 3 to 4. -/
theorem counters_move_on_total_failure :
    canDownload owner samplePaper = true ∧
    (∀ k, k < 6 → strategyBody deadWorld samplePaper k = none) ∧
    (download deadWorld { question := some samplePaper, requester := owner }).res
      = Res.json {} 404 "File could not be retrieved from storage" ∧
    samplePaper.downloads = 7 ∧
    (download deadWorld { question := some samplePaper, requester := owner }).store.question.map
      Question.downloads = some 8 ∧
    owner.downloadsCount = 3 ∧
    (download deadWorld
      { question := some samplePaper, requester := owner }).store.requester.downloadsCount = 4 := by
  decide

/-- C4 as amended: the counters are incremented before the chain runs, so after a request
that ends in the 404 of the exhausted chain `downloads` and `downloadsCount` are each one
more than before. -/
theorem total_failure_keeps_increment (w : World) (s : Store) (q : Question)
    (hq : s.question = some q)
    (hfail : (download w s).res.body = Body.json "File could not be retrieved from storage") :
    (download w s).store.question.map Question.downloads = some (q.downloads + 1) ∧
    (download w s).store.requester.downloadsCount = s.requester.downloadsCount + 1 := by
  rw [download_store_of_reached w s q hq (Or.inr hfail)]
  exact ⟨rfl, rfl⟩

/-- Witness of the amended C4 at the sample paper in the dead world. -/
theorem total_failure_keeps_increment_witness :
    (download deadWorld { question := some samplePaper, requester := owner }).store.question.map
      Question.downloads = some (samplePaper.downloads + 1) ∧
    (download deadWorld
      { question := some samplePaper, requester := owner }).store.requester.downloadsCount
      = owner.downloadsCount + 1 :=
  total_failure_keeps_increment deadWorld { question := some samplePaper, requester := owner }
    samplePaper rfl (by decide)

/-- C5: after a request that is answered with a file (some strategy succeeded, whichever and
after however many failures) `question.downloads` is exactly one more than before and so is
`requester.downloadsCount`; nothing else of the two records changed. -/
theorem success_increments_once (w : World) (s : Store) (q : Question)
    (hq : s.question = some q) (hfile : (download w s).res.body.isFile = true) :
    (download w s).store.question.map Question.downloads = some (q.downloads + 1) ∧
    (download w s).store.requester.downloadsCount = s.requester.downloadsCount + 1 ∧
    (download w s).store =
      { question := some { q with downloads := q.downloads + 1 }
        requester := { s.requester with downloadsCount := s.requester.downloadsCount + 1 } } := by
  rw [download_store_of_reached w s q hq (Or.inl hfile)]
  exact ⟨rfl, rfl, rfl⟩

/-- Witness of C5: the direct fetch and two signed attempts fail, the third signed attempt
succeeds. -/
theorem success_increments_once_witness :
    (download thirdAttemptWorld
      { question := some samplePaper, requester := owner }).store.question.map Question.downloads
      = some (7 + 1) ∧
    (download thirdAttemptWorld
      { question := some samplePaper, requester := owner }).store.requester.downloadsCount
      = 3 + 1 ∧
    (download thirdAttemptWorld { question := some samplePaper, requester := owner }).store =
      { question := some { samplePaper with downloads := 7 + 1 }
        requester := { owner with downloadsCount := 3 + 1 } } :=
  success_increments_once thirdAttemptWorld { question := some samplePaper, requester := owner }
    samplePaper rfl (by decide)

/-- Counterexample to C6: with a store that rejects `question.save()` the owner gets a 500 and
no retrieval is made, although the same request is answered 200 with the file when the save
goes through. -/
theorem file_withheld_on_counter_failure :
    (download liveWorld { question := some samplePaper, requester := owner }).res.status = 200 ∧
    (download liveWorld { question := some samplePaper, requester := owner }).res.body
      = Body.buffer [37, 80, 68] ∧
    (download brokenSaveWorld { question := some samplePaper, requester := owner }).res.status
      = 500 ∧
    (download brokenSaveWorld { question := some samplePaper, requester := owner }).res.body
      = Body.jsonError "Error downloading file" "save failed" ∧
    (download brokenSaveWorld { question := some samplePaper, requester := owner }).trace = [] := by
  decide

/-- C6 as amended: when persisting a counter fails (the question save or the user update
rejects) an allowed request is answered 500 "Error downloading file" and no retrieval action
is performed. -/
theorem counter_failure_is_internal_error (w : World) (s : Store) (q : Question)
    (hfind : w.findError = none) (hq : s.question = some q) (hfile : q.fileUrl ≠ "")
    (hgate : canDownload s.requester q = true)
    (herr : w.saveError ≠ none ∨ w.userUpdateError ≠ none) :
    (download w s).res.status = 500 ∧
    (∃ e, (download w s).res.body = Body.jsonError "Error downloading file" e) ∧
    (download w s).trace = [] := by
  cases hsave : w.saveError with
  | some e =>
    rw [download_save_error w s q e hfind hq hfile hgate hsave]
    exact ⟨rfl, ⟨e, rfl⟩, rfl⟩
  | none =>
    cases huser : w.userUpdateError with
    | some e =>
      rw [download_user_error w s q e hfind hq hfile hgate hsave huser]
      exact ⟨rfl, ⟨e, rfl⟩, rfl⟩
    | none =>
      rcases herr with h | h
      · exact absurd hsave h
      · exact absurd huser h

/-- Witness of the amended C6 at the sample paper and the store that rejects the save. -/
theorem counter_failure_is_internal_error_witness :
    (download brokenSaveWorld { question := some samplePaper, requester := owner }).res.status
      = 500 ∧
    (∃ e, (download brokenSaveWorld { question := some samplePaper, requester := owner }).res.body
      = Body.jsonError "Error downloading file" e) ∧
    (download brokenSaveWorld { question := some samplePaper, requester := owner }).trace = [] :=
  counter_failure_is_internal_error brokenSaveWorld
    { question := some samplePaper, requester := owner } samplePaper rfl rfl (by decide)
    (by decide) (Or.inl (by decide))

/-- Counterexample to C7: the owner asks for a paper whose non-empty `fileUrl` is on another
host; the GET would be fulfilled, but the handler issues none and answers 404. -/
theorem no_fetch_for_other_hosts :
    canDownload owner foreignPaper = true ∧ foreignPaper.fileUrl ≠ "" ∧
    (liveWorld.httpGet 0 foreignPaper.fileUrl).isSome = true ∧
    (download liveWorld { question := some foreignPaper, requester := owner }).trace = [] ∧
    (download liveWorld { question := some foreignPaper, requester := owner }).res
      = Res.json {} 404 "File format not supported for download" := by
  decide

/-- C7 as amended: for an allowed request whose counters were persisted, when `fileUrl`
contains `cloudinary.com` the first storage action is the GET of `fileUrl`, and when that GET
is fulfilled and its headers are accepted (the upstream response carries a content-length) the
answer is 200 with the fetched bytes and nothing else is tried; when `fileUrl` does not
contain `cloudinary.com` no GET is made and the answer is 404. -/
theorem direct_fetch_comes_first (w : World) (s : Store) (q : Question)
    (hfind : w.findError = none) (hq : s.question = some q) (hfile : q.fileUrl ≠ "")
    (hgate : canDownload s.requester q = true) (hsave : w.saveError = none)
    (huser : w.userUpdateError = none) :
    (includes q.fileUrl "cloudinary.com" = true →
      (download w s).trace.head? = some (Action.httpGet q.fileUrl) ∧
      ∀ fileResponse, w.httpGet 0 q.fileUrl = some fileResponse →
        headersAccepted (directHeaders q fileResponse) = true →
        (download w s).res.status = 200 ∧
        (download w s).res.body = Body.buffer fileResponse.data ∧
        (download w s).trace = [Action.httpGet q.fileUrl]) ∧
    (includes q.fileUrl "cloudinary.com" = false →
      (download w s).trace = [] ∧
      (download w s).res = Res.json {} 404 "File format not supported for download") := by
  constructor
  · intro hurl
    rw [download_chain w s q hfind hq hfile hgate hsave huser hurl]
    constructor
    · obtain ⟨t, ht⟩ := (retrievalChain_status_trace w q {}).2
      simp [ht]
    · intro fileResponse hget hacc
      have hd : directBytes w q = some fileResponse.data := by simp [directBytes, hget, hacc]
      have := retrievalChain_direct_ok w q {} fileResponse.data hd
      exact ⟨this.1, this.2.1, by simpa using this.2.2⟩
  · intro hurl
    rw [download_unsupported w s q hfind hq hfile hgate hsave huser hurl]
    exact ⟨rfl, rfl⟩

/-- Witness of the amended C7: the owner gets the three bytes of the sample paper from the
direct fetch. -/
theorem direct_fetch_comes_first_witness :
    (download liveWorld { question := some samplePaper, requester := owner }).trace.head?
      = some (Action.httpGet samplePaper.fileUrl) ∧
    (download liveWorld { question := some samplePaper, requester := owner }).res.status = 200 ∧
    (download liveWorld { question := some samplePaper, requester := owner }).res.body
      = Body.buffer [37, 80, 68] ∧
    (download liveWorld { question := some samplePaper, requester := owner }).trace
      = [Action.httpGet samplePaper.fileUrl] :=
  have h := (direct_fetch_comes_first liveWorld
    { question := some samplePaper, requester := owner } samplePaper rfl rfl (by decide)
    (by decide) rfl rfl).1 (by decide)
  ⟨h.1, h.2 _ rfl (by decide)⟩

/-- Counterexample to C8: the sample paper with an empty `fileName`, every GET rejected. The
direct GET and the four signed GETs are made, but no disk lookup follows. -/
theorem no_disk_lookup_without_file_name :
    canDownload owner namelessPaper = true ∧ namelessPaper.cloudinaryPublicId ≠ "" ∧
    (∀ n url, deadWorld.httpGet n url = none) ∧
    (download deadWorld { question := some namelessPaper, requester := owner }).trace
      = [Action.httpGet namelessPaper.fileUrl] ++
        attemptsActions deadWorld namelessPaper (attempts "pdf") 0 ∧
    (download deadWorld { question := some namelessPaper, requester := owner }).trace.any
      Action.isDiskLookup = false :=
  ⟨by decide, by decide, fun _ _ => rfl, by decide, by decide⟩

/-- C8 as amended: for an allowed request that reaches the chain (counters persisted,
`fileUrl` contains `cloudinary.com`) on a question with a non-empty `cloudinaryPublicId`, when
the direct GET and the four signed GETs are rejected the storage actions are exactly: the
direct GET, then signing and GET for (authenticated, primary), (authenticated, alternate),
(upload, primary), (upload, alternate), then one disk lookup when `fileName` is non-empty and
none when it is empty. -/
theorem failed_fetches_trace (w : World) (s : Store) (q : Question)
    (hfind : w.findError = none) (hq : s.question = some q) (hfile : q.fileUrl ≠ "")
    (hgate : canDownload s.requester q = true) (hsave : w.saveError = none)
    (huser : w.userUpdateError = none) (hurl : includes q.fileUrl "cloudinary.com" = true)
    (hpid : q.cloudinaryPublicId ≠ "") (hdirect : w.httpGet 0 q.fileUrl = none)
    (hsigned : ∀ n a, (attempts (fileExtension w q))[n]? = some a →
      w.httpGet (n + 1) (signedUrl w q n a) = none) :
    (download w s).trace =
      [Action.httpGet q.fileUrl] ++
      attemptActions w q 0
        { type := "authenticated", resource_type := primaryResource (fileExtension w q) } ++
      attemptActions w q 1
        { type := "authenticated", resource_type := altResource (fileExtension w q) } ++
      attemptActions w q 2
        { type := "upload", resource_type := primaryResource (fileExtension w q) } ++
      attemptActions w q 3
        { type := "upload", resource_type := altResource (fileExtension w q) } ++
      (if q.fileName ≠ "" then [Action.existsSync (w.uploadsPath q.fileName)] else []) := by
  rw [download_chain w s q hfind hq hfile hgate hsave huser hurl]
  obtain ⟨x2, -, htr2, heq⟩ := retrievalChain_after_fetches w q {}
    (directBytes_none_of_get w q hdirect)
    (fun _ j a hj => attemptBytes_none_of_get w q j a (hsigned j a hj))
  have hlocal : (match localFallback w q x2 with
      | (x3, true) => x3
      | (x3, false) =>
        { x3 with res := x3.res.json 404 "File could not be retrieved from storage" }).trace
      = x2.trace ++
        (if q.fileName ≠ "" then [Action.existsSync (w.uploadsPath q.fileName)] else []) := by
    by_cases h : q.fileName ≠ "" ∧ w.existsSync (w.uploadsPath q.fileName) = true
    · have := localFallback_ok w q x2 h
      rcases hx3 : localFallback w q x2 with ⟨x3, b3⟩
      rw [hx3] at this
      simp only at this
      obtain ⟨hb, -, -, ht⟩ := this
      subst hb
      simp [ht, h.1]
    · have := localFallback_fail w q x2 h
      rcases hx3 : localFallback w q x2 with ⟨x3, b3⟩
      rw [hx3] at this
      simp only at this
      obtain ⟨hb, -, ht⟩ := this
      subst hb
      simp [ht]
  simp only [heq, hlocal, htr2]
  simp [hpid, attempts, attemptsActions]

/-- Witness of the amended C8 at the sample paper in the dead world. -/
theorem failed_fetches_trace_witness :
    (download deadWorld { question := some samplePaper, requester := owner }).trace =
      [Action.httpGet samplePaper.fileUrl] ++
      attemptActions deadWorld samplePaper 0
        { type := "authenticated"
          resource_type := primaryResource (fileExtension deadWorld samplePaper) } ++
      attemptActions deadWorld samplePaper 1
        { type := "authenticated"
          resource_type := altResource (fileExtension deadWorld samplePaper) } ++
      attemptActions deadWorld samplePaper 2
        { type := "upload"
          resource_type := primaryResource (fileExtension deadWorld samplePaper) } ++
      attemptActions deadWorld samplePaper 3
        { type := "upload"
          resource_type := altResource (fileExtension deadWorld samplePaper) } ++
      (if samplePaper.fileName ≠ "" then
        [Action.existsSync (deadWorld.uploadsPath samplePaper.fileName)] else []) :=
  failed_fetches_trace deadWorld { question := some samplePaper, requester := owner }
    samplePaper rfl rfl (by decide) (by decide) rfl rfl (by decide) (by decide) rfl
    (fun _ _ _ => rfl)

/-- The chain when the direct fetch and the signed attempts fail and the local file exists. -/
theorem chain_local (w : World) (q : Question) (x : Exchange)
    (hd : directBytes w q = none)
    (hprev : ∀ j a, j < 4 → (attempts (fileExtension w q))[j]? = some a →
        q.cloudinaryPublicId ≠ "" → attemptBytes w q j a = none)
    (hloc : q.fileName ≠ "" ∧ w.existsSync (w.uploadsPath q.fileName) = true) :
    (retrievalChain w q x).res.body = Body.download (w.uploadsPath q.fileName) q.fileName ∧
    (retrievalChain w q x).res.status = x.res.status ∧
    (retrievalChain w q x).trace =
      x.trace ++ (List.range (4 + 1 + 1)).flatMap (strategyActions w q) := by
  obtain ⟨x2, hsame, htr2, heq⟩ := retrievalChain_after_fetches w q x hd
    (fun hpid j a hj => hprev j a
      (by
        have := (List.getElem?_eq_some.mp hj).1
        simpa [attempts] using this) hj hpid)
  have := localFallback_ok w q x2 hloc
  rcases hx3 : localFallback w q x2 with ⟨x3, b3⟩
  rw [hx3] at this heq
  simp only at this
  obtain ⟨hb3, hst, hbody, ht⟩ := this
  subst hb3
  simp only at heq
  rw [heq]
  refine ⟨hbody, hst.trans hsame.1, ?_⟩
  rw [ht, htr2]
  by_cases hpid : q.cloudinaryPublicId = "" <;>
    simp [List.range_succ, strategyActions, attempts, attemptsActions, hpid, hloc.1]

/-- The chain stops at the first block that runs to its end: if the `k`-th block, in the
order direct fetch, signed attempts one to four, local fallback, is the first whose body is
sent (`strategyBody`), the chain answers with that body, leaves the status as it was, and
performs the actions of the blocks up to the `k`-th and of none after it. A block whose GET
is fulfilled and whose headers are refused is no such block. -/
theorem chain_stops_at_first_success (w : World) (q : Question) (x : Exchange) (k : Nat)
    (b : Body) (hk : strategyBody w q k = some b)
    (hfirst : ∀ j, j < k → strategyBody w q j = none) :
    (retrievalChain w q x).res.body = b ∧
    (retrievalChain w q x).res.status = x.res.status ∧
    (retrievalChain w q x).trace = x.trace ++ (List.range (k + 1)).flatMap (strategyActions w q) := by
  cases k with
  | zero =>
    simp only [strategyBody, Option.map_eq_some'] at hk
    obtain ⟨d, hd, hb⟩ := hk
    subst hb
    have := retrievalChain_direct_ok w q x d hd
    refine ⟨this.2.1, this.1, ?_⟩
    rw [this.2.2]
    simp [List.range_succ, strategyActions]
  | succ i =>
    have hd : directBytes w q = none := by
      have := hfirst 0 (by omega)
      simpa [strategyBody] using this
    have hprev : ∀ j a, j < i → (attempts (fileExtension w q))[j]? = some a →
        q.cloudinaryPublicId ≠ "" → attemptBytes w q j a = none := by
      intro j a hlt hj hpid
      have := hfirst (j + 1) (by omega)
      simpa [strategyBody, hj, hpid] using this
    simp only [strategyBody] at hk
    cases hi : (attempts (fileExtension w q))[i]? with
    | some a =>
      rw [hi] at hk
      simp only at hk
      by_cases hpid : q.cloudinaryPublicId = ""
      · simp [hpid] at hk
      · simp only [ne_eq, hpid, not_false_eq_true, if_true, Option.map_eq_some'] at hk
        obtain ⟨d, hok, hb⟩ := hk
        subst hb
        have := retrievalChain_signed_ok w q x i a d hd hpid hi hok
          (fun j c hlt hj => hprev j c hlt hj hpid)
        refine ⟨this.2.1, this.1, ?_⟩
        rw [this.2.2]
        have hlt : i < 4 := by
          have := (List.getElem?_eq_some.mp hi).1
          simpa [attempts] using this
        interval_cases i <;>
          simp [List.range_succ, strategyActions, attempts, attemptsActions, hpid]
    | none =>
      rw [hi] at hk
      simp only at hk
      split at hk
      · next hcond =>
        obtain ⟨hi4, hloc⟩ := hcond
        subst hi4
        simp only [Option.some.injEq] at hk
        subst hk
        exact chain_local w q x hd hprev hloc
      · cases hk

/-- In the world where only the fourth GET is fulfilled the third signed attempt (block 3)
is the first to run to its end; the answer carries its four bytes and the trace ends with its
GET. -/
theorem chain_stops_at_first_success_witness :
    (retrievalChain thirdAttemptWorld samplePaper {}).res.body = Body.buffer [1, 2, 3, 4] ∧
    (retrievalChain thirdAttemptWorld samplePaper {}).res.status = 200 ∧
    (retrievalChain thirdAttemptWorld samplePaper {}).trace
      = [] ++ (List.range (3 + 1)).flatMap (strategyActions thirdAttemptWorld samplePaper) :=
  chain_stops_at_first_success thirdAttemptWorld samplePaper {} 3 (Body.buffer [1, 2, 3, 4])
    (by decide) (by decide)

/-- C10: for every question the attempt list has exactly the four entries (authenticated,
primary), (authenticated, alternate), (upload, primary), (upload, alternate), where primary
is the family of the derived extension; alternate differs from primary, the two are raw and
image in one order or the other, and the four entries are pairwise distinct. -/
theorem attempts_matrix (w : World) (q : Question) :
    attempts (fileExtension w q) =
      [ { type := "authenticated", resource_type := primaryResource (fileExtension w q) },
        { type := "authenticated", resource_type := altResource (fileExtension w q) },
        { type := "upload", resource_type := primaryResource (fileExtension w q) },
        { type := "upload", resource_type := altResource (fileExtension w q) } ] ∧
    (attempts (fileExtension w q)).length = 4 ∧
    altResource (fileExtension w q) ≠ primaryResource (fileExtension w q) ∧
    ((primaryResource (fileExtension w q) = "raw" ∧ altResource (fileExtension w q) = "image") ∨
      (primaryResource (fileExtension w q) = "image" ∧
        altResource (fileExtension w q) = "raw")) ∧
    (attempts (fileExtension w q)).Nodup := by
  have hp : primaryResource (fileExtension w q) = "raw" ∨
      primaryResource (fileExtension w q) = "image" := by
    unfold primaryResource
    split
    · exact Or.inl rfl
    · split
      · exact Or.inr rfl
      · exact Or.inl rfl
  refine ⟨rfl, rfl, ?_, ?_, ?_⟩
  · rcases hp with h | h <;> simp [altResource, h]
  · rcases hp with h | h <;> simp [altResource, h]
  · rcases hp with h | h <;> simp [attempts, altResource, h]

/-! ## Lemmas on the string helpers -/

theorem any_tails_dot (l : List Char) :
    l.tails.any (fun t => ['.'].isPrefixOf t) = true ↔ '.' ∈ l := by
  induction l with
  | nil => simp [List.isPrefixOf]
  | cons c cs ih =>
    rw [List.tails, List.any_cons, Bool.or_eq_true, ih]
    simp only [List.isPrefixOf, Bool.and_true, beq_iff_eq, List.mem_cons]

theorem includes_dot_iff (s : String) : includes s "." = true ↔ '.' ∈ s.data :=
  any_tails_dot s.data

/-- The text `splitPop sep s` is what follows the last `sep` of `s`. -/
theorem splitPop_after_last (sep : Char) (s : String) (h : sep ∈ s.data) :
    (∃ pre, s.data = pre ++ sep :: (splitPop sep s).data) ∧ sep ∉ (splitPop sep s).data := by
  have hsplit := List.takeWhile_append_dropWhile (fun c => c != sep) s.data.reverse
  have hmem : sep ∈ s.data.reverse := List.mem_reverse.mpr h
  have hno : sep ∉ s.data.reverse.takeWhile (fun c => c != sep) := by
    intro hin
    have := List.mem_takeWhile_imp hin
    simp at this
  constructor
  · cases hd : s.data.reverse.dropWhile (fun c => c != sep) with
    | nil =>
      rw [hd, List.append_nil] at hsplit
      rw [← hsplit] at hmem
      exact absurd hmem hno
    | cons c rest =>
      have hc : c = sep := by
        have := List.head_dropWhile_not (fun c => c != sep) s.data.reverse (by simp [hd])
        simp only [hd, List.head_cons] at this
        simpa using this
      subst hc
      refine ⟨rest.reverse, ?_⟩
      have : s.data = (s.data.reverse).reverse := (List.reverse_reverse _).symm
      rw [this, ← hsplit, hd]
      simp [splitPop]
  · intro hin
    apply hno
    simpa [splitPop] using hin

theorem asciiLower_eq_empty_iff (t : String) : asciiLower t = "" ↔ t = "" := by
  constructor
  · intro h
    have hd : (asciiLower t).data = [] := by rw [h]
    simp only [asciiLower, List.map_eq_nil_iff] at hd
    have : t = String.mk t.data := rfl
    rw [this, hd]
  · intro h
    subst h
    rfl

/-! ## Further lemmas on the chain -/

theorem signedLoop_cons_trace (w : World) (q : Question) (a : Attempt) (rest : List Attempt)
    (n : Nat) (x : Exchange) :
    ∃ t, (signedLoop w q (orElse q.fileName "") (fileExtension w q) (a :: rest) n x).1.trace
      = x.trace ++ attemptActions w q n a ++ t := by
  cases h : attemptBytes w q n a with
  | none =>
    obtain ⟨x1, -, htr, heq⟩ := signedLoop_cons_fail w q a rest n x h
    obtain ⟨-, t, ht⟩ := signedLoop_status_trace w q rest (n + 1) x1
    exact ⟨t, by rw [heq, ht, htr]⟩
  | some d => exact ⟨[], by simp [(signedLoop_cons_ok w q a rest n x d h).2.2.2]⟩

/-- The last step of the chain, the local fallback followed by the 404 of line 611, adds at
most the disk lookup to the trace. -/
theorem localTail_trace (w : World) (q : Question) (x2 : Exchange) :
    (match localFallback w q x2 with
      | (x3, true) => x3
      | (x3, false) =>
        { x3 with res := x3.res.json 404 "File could not be retrieved from storage" }).trace
      = x2.trace ++
        (if q.fileName ≠ "" then [Action.existsSync (w.uploadsPath q.fileName)] else []) := by
  by_cases h : q.fileName ≠ "" ∧ w.existsSync (w.uploadsPath q.fileName) = true
  · have := localFallback_ok w q x2 h
    rcases hx3 : localFallback w q x2 with ⟨x3, b3⟩
    rw [hx3] at this
    simp only at this
    obtain ⟨hb, -, -, ht⟩ := this
    subst hb
    simp [ht, h.1]
  · have := localFallback_fail w q x2 h
    rcases hx3 : localFallback w q x2 with ⟨x3, b3⟩
    rw [hx3] at this
    simp only at this
    obtain ⟨hb, -, ht⟩ := this
    subst hb
    simp [ht]

/-- After a failed direct fetch on a question with a public id, the first signing follows the
direct GET. -/
theorem retrievalChain_trace_signing (w : World) (q : Question) (x : Exchange)
    (hd : directBytes w q = none) (hpid : q.cloudinaryPublicId ≠ "") :
    ∃ t, (retrievalChain w q x).trace = x.trace ++ [Action.httpGet q.fileUrl] ++
      attemptActions w q 0
        { type := "authenticated", resource_type := primaryResource (fileExtension w q) } ++ t := by
  have h1 := directFetch_fail w q x hd
  rcases hx1 : directFetch w q x with ⟨x1, b1⟩
  rw [hx1] at h1
  simp only at h1
  obtain ⟨hb1, -, htr1⟩ := h1
  subst hb1
  obtain ⟨t2, ht2⟩ := signedLoop_cons_trace w q
    { type := "authenticated", resource_type := primaryResource (fileExtension w q) }
    [ { type := "authenticated", resource_type := altResource (fileExtension w q) },
      { type := "upload", resource_type := primaryResource (fileExtension w q) },
      { type := "upload", resource_type := altResource (fileExtension w q) } ] 0 x1
  unfold retrievalChain
  simp only [hx1, signedFallback, hpid, ne_eq, not_false_eq_true, if_true, attempts]
  rcases hx2 : signedLoop w q (orElse q.fileName "") (fileExtension w q)
    [ { type := "authenticated", resource_type := primaryResource (fileExtension w q) },
      { type := "authenticated", resource_type := altResource (fileExtension w q) },
      { type := "upload", resource_type := primaryResource (fileExtension w q) },
      { type := "upload", resource_type := altResource (fileExtension w q) } ] 0 x1 with ⟨x2, b2⟩
  rw [hx2] at ht2
  simp only at ht2
  cases b2 with
  | true => exact ⟨t2, by simp only [ht2, htr1]⟩
  | false =>
    simp only
    rw [localTail_trace w q x2, ht2, htr1]
    exact ⟨t2 ++ (if q.fileName ≠ "" then [Action.existsSync (w.uploadsPath q.fileName)]
      else []), by simp⟩

/-! ## Lemmas on the response headers -/

theorem find_filter_other (l : List (String × String)) (n m : String) (h : m ≠ n) :
    (l.filter (fun p => p.1 != n)).find? (fun p => p.1 == m) = l.find? (fun p => p.1 == m) := by
  induction l with
  | nil => rfl
  | cons p rest ih =>
    by_cases hp : p.1 = n
    · have hm : (p.1 == m) = false := by
        rw [beq_eq_false_iff_ne]
        exact fun hpm => h (hpm.symm.trans hp)
      have hf : (p.1 != n) = false := by simp [hp]
      rw [List.filter_cons, List.find?_cons, hm, hf]
      simpa using ih
    · have hf : (p.1 != n) = true := by simp [hp]
      rw [List.filter_cons, hf]
      simp only [if_true]
      rw [List.find?_cons, List.find?_cons, ih]

theorem Res.getHeader_setHeader_same {r r1 : Res} {name v : String}
    (h : r.setHeader name (some v) = some r1) : r1.getHeader name = some v := by
  unfold Res.setHeader at h
  simp only at h
  split at h
  · cases h
    simp [Res.getHeader, List.find?]
  · cases h

theorem Res.getHeader_setHeader_other {r r1 : Res} {name m : String} {value : Option String}
    (h : r.setHeader name value = some r1) (hm : m ≠ name) : r1.getHeader m = r.getHeader m := by
  unfold Res.setHeader at h
  split at h
  · cases h
  · split at h
    · cases h
      have hne : (name == m) = false := by
        rw [beq_eq_false_iff_ne]
        exact fun e => hm e.symm
      simp only [Res.getHeader]
      rw [List.find?_cons, hne, find_filter_other _ _ _ hm]
    · cases h

theorem Res.getHeader_setHeaders_other (hs : List (String × Option String)) (r : Res)
    (name : String) (h : ∀ p ∈ hs, p.1 ≠ name) :
    (r.setHeaders hs).1.getHeader name = r.getHeader name := by
  induction hs generalizing r with
  | nil => rfl
  | cons p rest ih =>
    obtain ⟨n, value⟩ := p
    unfold Res.setHeaders
    cases hset : r.setHeader n value with
    | none => rfl
    | some r1 =>
      simp only
      rw [ih r1 (fun p hp => h p (List.mem_cons_of_mem _ hp))]
      exact Res.getHeader_setHeader_other hset
        (fun e => h (n, value) (List.mem_cons_self _ _) e.symm)

/-- After an accepted run of `setHeader` statements a name that the run sets to one value
only carries that value. -/
theorem Res.getHeader_setHeaders (hs : List (String × Option String)) (r : Res)
    (name v : String) (hacc : headersAccepted hs = true) (hmem : (name, some v) ∈ hs)
    (huniq : ∀ v2, (name, v2) ∈ hs → v2 = some v) :
    (r.setHeaders hs).1.getHeader name = some v := by
  induction hs generalizing r with
  | nil => simp at hmem
  | cons p rest ih =>
    obtain ⟨n, value⟩ := p
    have hrest : headersAccepted rest = true := by
      simp only [headersAccepted, List.all_cons, Bool.and_eq_true] at hacc
      exact hacc.2
    cases value with
    | none => simp [headersAccepted] at hacc
    | some x =>
      have hx : validHeaderValue x = true := by
        simp only [headersAccepted, List.all_cons, Bool.and_eq_true] at hacc
        exact hacc.1
      unfold Res.setHeaders
      have hset : r.setHeader n (some x) =
          some { r with headers := (n, x) :: r.headers.filter (fun h => h.1 != n) } := by
        simp [Res.setHeader, hx]
      rw [hset]
      simp only
      by_cases hin : (name, some v) ∈ rest
      · exact ih _ hrest hin (fun v2 h2 => huniq v2 (List.mem_cons_of_mem _ h2))
      · have hhead : (name, some v) = (n, some x) := by
          rcases List.mem_cons.mp hmem with h | h
          · exact h
          · exact absurd h hin
        have hn : n = name := (Prod.mk.inj hhead).1.symm
        have hxv : x = v := by
          have := (Prod.mk.inj hhead).2
          simpa using this.symm
        subst hn hxv
        rw [Res.getHeader_setHeaders_other rest _ n]
        · exact Res.getHeader_setHeader_same hset
        · intro p hp hpn
          apply hin
          obtain ⟨pn, pv⟩ := p
          simp only at hpn
          subst hpn
          have := huniq pv (List.mem_cons_of_mem _ hp)
          subst this
          exact hp

theorem directFetch_ok_res (w : World) (q : Question) (x : Exchange) (r : HttpResponse)
    (hget : w.httpGet 0 q.fileUrl = some r)
    (hacc : headersAccepted (directHeaders q r) = true) :
    (directFetch w q x).2 = true ∧
    (directFetch w q x).1.res = ((x.res.setHeaders (directHeaders q r)).1).send r.data := by
  have hsnd := Res.setHeaders_snd (directHeaders q r) x.res
  rw [hacc] at hsnd
  unfold directFetch
  simp only [Exchange.log, hget]
  rcases hr : x.res.setHeaders (directHeaders q r) with ⟨r1, b⟩
  rw [hr] at hsnd
  simp only at hsnd
  subst hsnd
  exact ⟨rfl, rfl⟩

theorem signedLoop_cons_ok_res (w : World) (q : Question) (a : Attempt) (rest : List Attempt)
    (n : Nat) (x : Exchange) (r : HttpResponse)
    (hget : w.httpGet (n + 1) (signedUrl w q n a) = some r)
    (hacc : headersAccepted (signedHeaders (orElse q.fileName "") (fileExtension w q) r) = true) :
    (signedLoop w q (orElse q.fileName "") (fileExtension w q) (a :: rest) n x).1.res =
      ((x.res.setHeaders (signedHeaders (orElse q.fileName "") (fileExtension w q) r)).1).send
        r.data := by
  have hsnd := Res.setHeaders_snd
    (signedHeaders (orElse q.fileName "") (fileExtension w q) r) x.res
  rw [hacc] at hsnd
  rw [signedLoop]
  simp only [Exchange.log, hget]
  rcases hr : x.res.setHeaders (signedHeaders (orElse q.fileName "") (fileExtension w q) r)
    with ⟨r1, b⟩
  rw [hr] at hsnd
  simp only at hsnd
  subst hsnd
  rfl

theorem signedLoop_first_ok_res (w : World) (q : Question) (l : List Attempt) (n : Nat)
    (x : Exchange) (i : Nat) (a : Attempt) (r : HttpResponse)
    (hi : l[i]? = some a) (hget : w.httpGet (n + i + 1) (signedUrl w q (n + i) a) = some r)
    (hacc : headersAccepted (signedHeaders (orElse q.fileName "") (fileExtension w q) r) = true)
    (h : ∀ j b, j < i → l[j]? = some b → attemptBytes w q (n + j) b = none) :
    ∃ r0 : Res,
      (signedLoop w q (orElse q.fileName "") (fileExtension w q) l n x).1.res =
        ((r0.setHeaders (signedHeaders (orElse q.fileName "") (fileExtension w q) r)).1).send
          r.data := by
  induction l generalizing n x i with
  | nil => simp at hi
  | cons c rest ih =>
    cases i with
    | zero =>
      simp only [List.getElem?_cons_zero, Option.some.injEq] at hi
      subst hi
      exact ⟨x.res, signedLoop_cons_ok_res w q c rest n x r (by simpa using hget) hacc⟩
    | succ i =>
      have h0 : attemptBytes w q n c = none := by simpa using h 0 c (by omega) (by simp)
      obtain ⟨x1, -, -, heq⟩ := signedLoop_cons_fail w q c rest n x h0
      have hi1 : rest[i]? = some a := by simpa using hi
      have hget1 : w.httpGet (n + 1 + i + 1) (signedUrl w q (n + 1 + i) a) = some r := by
        rw [show n + 1 + i = n + (i + 1) by omega]; exact hget
      have hrest : ∀ j b, j < i → rest[j]? = some b →
          attemptBytes w q (n + 1 + j) b = none := by
        intro j b hlt hj
        have := h (j + 1) b (by omega) (by simpa using hj)
        rw [show n + 1 + j = n + (j + 1) by omega]
        exact this
      rw [heq]
      exact ih (n + 1) x1 i hi1 hget1 hrest

/-! ## Lemmas on the version token -/

theorem matchVersionAt_eq_some_iff (l ds : List Char) :
    matchVersionAt l = some ds ↔ StartsWithVersion l ds := by
  unfold matchVersionAt
  split
  · next rest =>
    simp only
    constructor
    · intro h
      split at h
      · next hc =>
        simp only [Option.some.injEq] at h
        subst h
        obtain ⟨hne, hhead⟩ := hc
        refine ⟨hne, fun c hc => List.mem_takeWhile_imp hc, ?_⟩
        have hsplit := List.takeWhile_append_dropWhile Char.isDigit rest
        have hdrop : rest.drop (rest.takeWhile Char.isDigit).length
            = rest.dropWhile Char.isDigit := by
          have := List.drop_left (rest.takeWhile Char.isDigit) (rest.dropWhile Char.isDigit)
          rw [hsplit] at this
          exact this
        rw [hdrop] at hhead
        obtain ⟨ys, hys⟩ := List.head?_eq_some_iff.mp hhead
        exact ⟨ys, by rw [← hys, hsplit]⟩
      · cases h
    · rintro ⟨hne, hdig, rest2, heq⟩
      have hrest : rest = ds ++ '/' :: rest2 := by
        simp only [List.cons.injEq, true_and] at heq
        exact heq
      have htw : rest.takeWhile Char.isDigit = ds := by
        rw [hrest, List.takeWhile_append_of_pos hdig]
        simp [List.takeWhile_cons, show Char.isDigit '/' = false by decide]
      rw [htw]
      have hhead : (rest.drop ds.length).head? = some '/' := by
        rw [hrest, List.drop_left]
        rfl
      simp [hne, hhead]
  · next hno =>
    constructor
    · intro h
      cases h
    · rintro ⟨-, -, rest2, heq⟩
      exact absurd heq (hno _)

theorem matchVersionAt_eq_none_iff (l : List Char) :
    matchVersionAt l = none ↔ ∀ ds, ¬ StartsWithVersion l ds := by
  constructor
  · intro h ds hs
    rw [(matchVersionAt_eq_some_iff l ds).mpr hs] at h
    cases h
  · intro h
    cases hm : matchVersionAt l with
    | none => rfl
    | some ds => exact absurd ((matchVersionAt_eq_some_iff l ds).mp hm) (h ds)

theorem matchVersion_eq_none_iff (l : List Char) :
    matchVersion l = none ↔ ¬ HasVersion l := by
  induction l with
  | nil =>
    simp only [matchVersion, true_iff]
    rintro ⟨pre, suf, ds, heq, -, -, rest, hsuf⟩
    subst hsuf
    have := congrArg List.length heq
    simp at this
    omega
  | cons c cs ih =>
    unfold matchVersion
    cases hm : matchVersionAt (c :: cs) with
    | some d =>
      constructor
      · intro h
        cases h
      · intro h
        exact absurd ⟨[], c :: cs, d, rfl, (matchVersionAt_eq_some_iff _ _).mp hm⟩ h
    | none =>
      simp only
      rw [ih]
      have hno := (matchVersionAt_eq_none_iff _).mp hm
      constructor
      · rintro h ⟨pre, suf, ds, heq, hs⟩
        cases pre with
        | nil =>
          simp only [List.nil_append] at heq
          subst heq
          exact hno ds hs
        | cons p ps =>
          simp only [List.cons_append, List.cons.injEq] at heq
          exact h ⟨ps, suf, ds, heq.2, hs⟩
      · rintro h ⟨pre, suf, ds, heq, hs⟩
        exact h ⟨c :: pre, suf, ds, by simp [heq], hs⟩

theorem matchVersion_eq_some_iff (l ds : List Char) :
    matchVersion l = some ds ↔ FirstVersion l ds := by
  induction l with
  | nil =>
    unfold matchVersion
    constructor
    · intro h
      cases h
    · rintro ⟨pre, suf, heq, ⟨-, -, rest, hsuf⟩, -⟩
      subst hsuf
      have := congrArg List.length heq
      simp at this
      omega
  | cons c cs ih =>
    unfold matchVersion
    cases hm : matchVersionAt (c :: cs) with
    | some d =>
      simp only [Option.some.injEq]
      have hd := (matchVersionAt_eq_some_iff _ _).mp hm
      constructor
      · intro h
        subst h
        exact ⟨[], c :: cs, rfl, hd, fun _ _ _ _ hlt => by simp at hlt⟩
      · rintro ⟨pre, suf, heq, hs, hmin⟩
        cases pre with
        | nil =>
          simp only [List.nil_append] at heq
          subst heq
          have := (matchVersionAt_eq_some_iff _ _).mpr hs
          rw [hm] at this
          exact Option.some.inj this
        | cons p ps => exact absurd hd (hmin [] (c :: cs) d rfl (by simp))
    | none =>
      simp only
      rw [ih]
      have hno := (matchVersionAt_eq_none_iff _).mp hm
      constructor
      · rintro ⟨pre, suf, heq, hs, hmin⟩
        refine ⟨c :: pre, suf, by simp [heq], hs, ?_⟩
        intro pre2 suf2 ds2 heq2 hlt
        cases pre2 with
        | nil =>
          simp only [List.nil_append] at heq2
          subst heq2
          exact hno ds2
        | cons p ps =>
          simp only [List.cons_append, List.cons.injEq] at heq2
          exact hmin ps suf2 ds2 heq2.2 (by simpa using hlt)
      · rintro ⟨pre, suf, heq, hs, hmin⟩
        cases pre with
        | nil =>
          simp only [List.nil_append] at heq
          subst heq
          exact absurd hs (hno ds)
        | cons p ps =>
          simp only [List.cons_append, List.cons.injEq] at heq
          refine ⟨ps, suf, heq.2, hs, ?_⟩
          intro pre2 suf2 ds2 heq2 hlt
          exact hmin (c :: pre2) suf2 ds2 (by simp [heq2]) (by simpa using hlt)

/-! ## Lemmas on the actions in the trace -/

theorem signedLoop_trace_mem (w : World) (q : Question) (l : List Attempt) (n : Nat)
    (x : Exchange) (act : Action)
    (h : act ∈ (signedLoop w q (orElse q.fileName "") (fileExtension w q) l n x).1.trace) :
    act ∈ x.trace ∨ ∃ m a, act ∈ attemptActions w q m a := by
  induction l generalizing n x with
  | nil => exact Or.inl (by simpa [signedLoop] using h)
  | cons c rest ih =>
    cases hb : attemptBytes w q n c with
    | none =>
      obtain ⟨x1, -, htr, heq⟩ := signedLoop_cons_fail w q c rest n x hb
      rw [heq] at h
      rcases ih (n + 1) x1 h with h1 | h1
      · rw [htr] at h1
        rcases List.mem_append.mp h1 with h2 | h2
        · exact Or.inl h2
        · exact Or.inr ⟨n, c, h2⟩
      · exact Or.inr h1
    | some d =>
      rw [(signedLoop_cons_ok w q c rest n x d hb).2.2.2] at h
      rcases List.mem_append.mp h with h2 | h2
      · exact Or.inl h2
      · exact Or.inr ⟨n, c, h2⟩

theorem retrievalChain_trace_mem (w : World) (q : Question) (act : Action)
    (h : act ∈ (retrievalChain w q {}).trace) :
    act = Action.httpGet q.fileUrl ∨ (∃ m a, act ∈ attemptActions w q m a) ∨
      act = Action.existsSync (w.uploadsPath q.fileName) := by
  have h1 := (directFetch_status_trace w q {}).2
  rcases hx1 : directFetch w q {} with ⟨x1, b1⟩
  rw [hx1] at h1
  simp only [show ({} : Exchange).trace = [] from rfl, List.nil_append] at h1
  have hloop : ∀ act2, act2 ∈ (signedFallback w q x1).1.trace →
      act2 = Action.httpGet q.fileUrl ∨ ∃ m a, act2 ∈ attemptActions w q m a := by
    intro act2 h2
    unfold signedFallback at h2
    split at h2
    · rcases signedLoop_trace_mem w q _ 0 x1 act2 h2 with h3 | h3
      · rw [h1] at h3
        exact Or.inl (by simpa using h3)
      · exact Or.inr h3
    · rw [h1] at h2
      exact Or.inl (by simpa using h2)
  unfold retrievalChain at h
  rw [hx1] at h
  cases b1 with
  | true =>
    simp only at h
    rw [h1] at h
    exact Or.inl (by simpa using h)
  | false =>
    simp only at h
    rcases hx2 : signedFallback w q x1 with ⟨x2, b2⟩
    rw [hx2] at h hloop
    simp only at hloop
    cases b2 with
    | true =>
      simp only at h
      rcases hloop act h with h3 | h3
      · exact Or.inl h3
      · exact Or.inr (Or.inl h3)
    | false =>
      simp only at h
      rw [localTail_trace w q x2] at h
      rcases List.mem_append.mp h with h3 | h3
      · rcases hloop act h3 with h4 | h4
        · exact Or.inl h4
        · exact Or.inr (Or.inl h4)
      · by_cases hn : q.fileName = ""
        · simp [hn] at h3
        · simp only [ne_eq, hn, not_false_eq_true, if_true, List.mem_singleton] at h3
          exact Or.inr (Or.inr h3)

/-! ## The response of a fetch block that runs to its end -/

theorem retrievalChain_direct_res (w : World) (q : Question) (x : Exchange) (r : HttpResponse)
    (hget : w.httpGet 0 q.fileUrl = some r)
    (hacc : headersAccepted (directHeaders q r) = true) :
    (retrievalChain w q x).res = ((x.res.setHeaders (directHeaders q r)).1).send r.data := by
  have h := directFetch_ok_res w q x r hget hacc
  unfold retrievalChain
  rcases hx1 : directFetch w q x with ⟨x1, b1⟩
  rw [hx1] at h
  simp only at h
  obtain ⟨hb, hres⟩ := h
  subst hb
  exact hres

theorem retrievalChain_signed_res (w : World) (q : Question) (x : Exchange) (i : Nat)
    (a : Attempt) (r : HttpResponse) (hd : directBytes w q = none)
    (hpid : q.cloudinaryPublicId ≠ "")
    (hi : (attempts (fileExtension w q))[i]? = some a)
    (hget : w.httpGet (i + 1) (signedUrl w q i a) = some r)
    (hacc : headersAccepted (signedHeaders (orElse q.fileName "") (fileExtension w q) r) = true)
    (hprev : ∀ j b, j < i → (attempts (fileExtension w q))[j]? = some b →
      attemptBytes w q j b = none) :
    ∃ r0 : Res, (retrievalChain w q x).res =
      ((r0.setHeaders (signedHeaders (orElse q.fileName "") (fileExtension w q) r)).1).send
        r.data := by
  have hok : attemptBytes w q i a = some r.data := by simp [attemptBytes, hget, hacc]
  have h1 := directFetch_fail w q x hd
  rcases hx1 : directFetch w q x with ⟨x1, b1⟩
  rw [hx1] at h1
  simp only at h1
  obtain ⟨hb1, -, -⟩ := h1
  subst hb1
  have h2 := signedLoop_first_ok w q (attempts (fileExtension w q)) 0 x1 i a r.data hi
    (by simpa using hok) (fun j b hlt hj => by simpa using hprev j b hlt hj)
  obtain ⟨r0, hr0⟩ := signedLoop_first_ok_res w q (attempts (fileExtension w q)) 0 x1 i a r hi
    (by simpa using hget) hacc (fun j b hlt hj => by simpa using hprev j b hlt hj)
  rcases hx2 : signedLoop w q (orElse q.fileName "") (fileExtension w q)
    (attempts (fileExtension w q)) 0 x1 with ⟨x2, b2⟩
  rw [hx2] at h2 hr0
  simp only at h2 hr0
  obtain ⟨hb2, -, -, -⟩ := h2
  subst hb2
  refine ⟨r0, ?_⟩
  unfold retrievalChain
  simp only [hx1, signedFallback, hpid, ne_eq, not_false_eq_true, if_true, hx2]
  exact hr0

/-- Counterexample to C11: a dot-less `fileName` and a `fileUrl` whose last path segment,
`file-17.`, contains a dot. The lower-cased text after that dot is empty, yet the derived
extension is `pdf`. -/
theorem extension_of_segment_ending_in_dot :
    includes dotUrlPaper.fileName "." = false ∧
    deadWorld.urlPathname dotUrlPaper.fileUrl
      = some "/demo/raw/upload/v1712/question-bank/file-17." ∧
    splitPop '/' "/demo/raw/upload/v1712/question-bank/file-17." = "file-17." ∧
    includes "file-17." "." = true ∧
    deadWorld.toLowerCase (splitPop '.' "file-17.") = "" ∧
    fileExtension deadWorld dotUrlPaper = "pdf" := by
  decide

/-- C11 as amended: with a `toLowerCase` that keeps non-empty text non-empty, the derived
extension is the lower-cased text after the last dot of `fileName` when `fileName` contains a
dot and that text is non-empty; otherwise, when `fileUrl` parses, the lower-cased text after
the last dot of the last segment of its path when that segment contains a dot and that text
is non-empty; otherwise `pdf`. The text after the last dot is what `split('.').pop()`
yields. -/
theorem fileExtension_derivation (w : World) (q : Question)
    (hlow : ∀ t, w.toLowerCase t = "" ↔ t = "") :
    fileExtension w q =
      (if includes q.fileName "." = true ∧ splitPop '.' q.fileName ≠ "" then
        w.toLowerCase (splitPop '.' q.fileName)
      else
        match w.urlPathname q.fileUrl with
        | some urlPath =>
          if includes (splitPop '/' urlPath) "." = true ∧
              splitPop '.' (splitPop '/' urlPath) ≠ "" then
            w.toLowerCase (splitPop '.' (splitPop '/' urlPath))
          else "pdf"
        | none => "pdf") ∧
    ∀ s : String, includes s "." = true →
      (∃ pre, s.data = pre ++ '.' :: (splitPop '.' s).data) ∧ '.' ∉ (splitPop '.' s).data := by
  refine ⟨?_, fun s hs => splitPop_after_last '.' s ((includes_dot_iff s).mp hs)⟩
  have horElse : ∀ a : String, orElse a "" = a := by
    intro a
    unfold orElse
    split
    · next h => exact h.symm
    · rfl
  have hl0 : w.toLowerCase "" = "" := (hlow "").mpr rfl
  unfold fileExtension extFromName extFromUrl
  simp only [horElse]
  by_cases hname : includes q.fileName "." = true
  · by_cases htext : splitPop '.' q.fileName = ""
    · have hl : w.toLowerCase (splitPop '.' q.fileName) = "" := (hlow _).mpr htext
      simp only [hname, if_true, hl, htext, ne_eq, not_true_eq_false, and_false, if_false]
      cases hurl : w.urlPathname q.fileUrl with
      | none => simp [orElse, hl0]
      | some urlPath =>
        simp only
        by_cases hseg : includes (splitPop '/' urlPath) "." = true
        · by_cases hext : splitPop '.' (splitPop '/' urlPath) = ""
          · have hl2 := (hlow _).mpr hext
            simp [hseg, hext, hl2, orElse, hl0]
          · have hl2 : w.toLowerCase (splitPop '.' (splitPop '/' urlPath)) ≠ "" :=
              fun h => hext ((hlow _).mp h)
            simp [hseg, hext, hl2, orElse, hl0]
        · simp [hseg, orElse, hl0]
    · have hl : w.toLowerCase (splitPop '.' q.fileName) ≠ "" := fun h => htext ((hlow _).mp h)
      simp [hname, htext, hl, orElse]
  · simp only [hname, if_false, false_and]
    cases hurl : w.urlPathname q.fileUrl with
    | none => simp [orElse, hl0]
    | some urlPath =>
      simp only
      by_cases hseg : includes (splitPop '/' urlPath) "." = true
      · by_cases hext : splitPop '.' (splitPop '/' urlPath) = ""
        · have hl2 := (hlow _).mpr hext
          simp [hseg, hext, hl2, orElse, hl0]
        · have hl2 : w.toLowerCase (splitPop '.' (splitPop '/' urlPath)) ≠ "" :=
            fun h => hext ((hlow _).mp h)
          simp [hseg, hext, hl2, orElse, hl0]
      · simp [hseg, orElse, hl0]

/-- Witness of the amended C11, the three examples of the specification: `report.final.PDF`
gives `pdf`, a dot-less name with the URL segment `abc123.png` gives `png`, and an empty name
with a text that is no URL gives `pdf`. -/
theorem fileExtension_derivation_witness :
    fileExtension deadWorld { samplePaper with fileName := "report.final.PDF" } = "pdf" ∧
    fileExtension deadWorld
      { samplePaper with
        fileName := "scan"
        fileUrl := "https://res.cloudinary.com/demo/image/upload/v7/abc123.png" } = "png" ∧
    fileExtension deadWorld { samplePaper with fileName := "", fileUrl := "cloudinary.com" }
      = "pdf" :=
  ⟨(fileExtension_derivation deadWorld { samplePaper with fileName := "report.final.PDF" }
      asciiLower_eq_empty_iff).1.trans (by decide),
   (fileExtension_derivation deadWorld
      { samplePaper with
        fileName := "scan"
        fileUrl := "https://res.cloudinary.com/demo/image/upload/v7/abc123.png" }
      asciiLower_eq_empty_iff).1.trans (by decide),
   (fileExtension_derivation deadWorld
      { samplePaper with fileName := "", fileUrl := "cloudinary.com" }
      asciiLower_eq_empty_iff).1.trans (by decide)⟩

/-- C12: the primary family of an extension is `image` exactly when the extension is one of
jpg, jpeg, png, gif, webp, bmp, tiff, tif, svg, ico, and `raw` otherwise; docx gives raw, png
gives image, exe gives raw. -/
theorem primaryResource_classification (e : String) :
    (primaryResource e = "image" ↔ e ∈ imgExts) ∧
    primaryResource e = (if e ∈ imgExts then "image" else "raw") ∧
    primaryResource "docx" = "raw" ∧ primaryResource "png" = "image" ∧
    primaryResource "exe" = "raw" := by
  have hdisj : e ∈ imgExts → e ∉ docExts := by
    intro h
    simp only [imgExts, List.mem_cons, List.mem_singleton, List.not_mem_nil, or_false] at h
    rcases h with h | h | h | h | h | h | h | h | h | h <;> subst h <;> decide
  have hval : primaryResource e = (if e ∈ imgExts then "image" else "raw") := by
    unfold primaryResource
    by_cases h : e ∈ imgExts
    · have hc : imgExts.contains e = true := by simpa using h
      simp [hdisj h, hc, h]
    · have hc : imgExts.contains e = false := by simpa using h
      simp [hc, h]
  refine ⟨?_, hval, by decide, by decide, by decide⟩
  rw [hval]
  by_cases h : e ∈ imgExts <;> simp [h]

/-- C13: the chain generates a signed URL exactly when the direct fetch failed and
`cloudinaryPublicId` is non-empty; with an empty `cloudinaryPublicId` a failed direct fetch is
followed by the local fallback alone. -/
theorem signed_matrix_iff (w : World) (q : Question) :
    ((retrievalChain w q {}).trace.any Action.isSigning = true ↔
      (directBytes w q = none ∧ q.cloudinaryPublicId ≠ "")) ∧
    (directBytes w q = none ∧ q.cloudinaryPublicId = "" →
      (retrievalChain w q {}).trace = [Action.httpGet q.fileUrl] ++
        (if q.fileName ≠ "" then [Action.existsSync (w.uploadsPath q.fileName)] else [])) := by
  have hempty : directBytes w q = none → q.cloudinaryPublicId = "" →
      (retrievalChain w q {}).trace = [Action.httpGet q.fileUrl] ++
        (if q.fileName ≠ "" then [Action.existsSync (w.uploadsPath q.fileName)] else []) := by
    intro hd hpid
    obtain ⟨x2, -, htr2, heq⟩ := retrievalChain_after_fetches w q {} hd
      (fun h => absurd hpid h)
    rw [heq, localTail_trace w q x2, htr2]
    simp [hpid]
  refine ⟨?_, fun h => hempty h.1 h.2⟩
  cases hd : directBytes w q with
  | some d =>
    have := (retrievalChain_direct_ok w q {} d hd).2.2
    simp only [List.nil_append] at this
    simp [this, Action.isSigning]
  | none =>
    by_cases hpid : q.cloudinaryPublicId = ""
    · rw [hempty hd hpid]
      by_cases hn : q.fileName = "" <;> simp [hn, hpid, Action.isSigning]
    · obtain ⟨t, ht⟩ := retrievalChain_trace_signing w q {} hd hpid
      rw [ht]
      simp [hpid, attemptActions, Action.isSigning]

/-- C15: when an allowed request reaches the chain and every strategy fails, the answer is
404 with the message `File could not be retrieved from storage`; the status is not the 403 of
the access gate. -/
theorem exhausted_chain_is_404 (w : World) (s : Store) (q : Question)
    (hfind : w.findError = none) (hq : s.question = some q) (hfile : q.fileUrl ≠ "")
    (hgate : canDownload s.requester q = true) (hsave : w.saveError = none)
    (huser : w.userUpdateError = none) (hurl : includes q.fileUrl "cloudinary.com" = true)
    (hall : ∀ k, k < 6 → strategyBody w q k = none) :
    (download w s).res.status = 404 ∧
    (download w s).res.body = Body.json "File could not be retrieved from storage" ∧
    (download w s).res.status ≠ 403 := by
  have hd : directBytes w q = none := by
    have := hall 0 (by omega)
    simpa [strategyBody] using this
  have hsigned : q.cloudinaryPublicId ≠ "" → ∀ j a,
      (attempts (fileExtension w q))[j]? = some a → attemptBytes w q j a = none := by
    intro hpid j a hj
    have hlt : j < 4 := by
      have := (List.getElem?_eq_some.mp hj).1
      simpa [attempts] using this
    have := hall (j + 1) (by omega)
    simpa [strategyBody, hj, hpid] using this
  have hlocal : ¬ (q.fileName ≠ "" ∧ w.existsSync (w.uploadsPath q.fileName) = true) := by
    intro hloc
    have := hall 5 (by omega)
    simp [strategyBody, attempts, hloc.1, hloc.2] at this
  rw [download_chain w s q hfind hq hfile hgate hsave huser hurl]
  obtain ⟨x2, -, -, heq⟩ := retrievalChain_after_fetches w q {} hd hsigned
  have hl := localFallback_fail w q x2 hlocal
  rcases hx3 : localFallback w q x2 with ⟨x3, b3⟩
  rw [hx3] at hl heq
  obtain ⟨hb, -, -⟩ := hl
  simp only at hb
  subst hb
  simp only at heq
  simp [heq, Res.json]

/-- Witness of C15: the owner asks for the sample paper in the world where every strategy
fails. -/
theorem exhausted_chain_is_404_witness :
    (download deadWorld { question := some samplePaper, requester := owner }).res.status = 404 ∧
    (download deadWorld { question := some samplePaper, requester := owner }).res.body
      = Body.json "File could not be retrieved from storage" ∧
    (download deadWorld { question := some samplePaper, requester := owner }).res.status ≠ 403 :=
  exhausted_chain_is_404 deadWorld { question := some samplePaper, requester := owner }
    samplePaper rfl rfl (by decide) (by decide) rfl rfl (by decide) (by decide)

/-- C14, the code at the failing input: the direct GET of the sample paper is fulfilled with
three bytes and no content-length. Line 529 hands `undefined` to `res.setHeader`, the throw
is caught as a failed fetch, the chain goes on to the signed attempts and the request ends in
the 404 of the exhausted chain. The signed path, which tests the header first (line 585),
serves a response without content-length and leaves the header out; with a content-length
the direct path passes it on. -/
theorem fetched_file_without_length_not_served :
    canDownload owner samplePaper = true ∧
    chunkedWorld.httpGet 0 samplePaper.fileUrl
      = some { contentType := some "application/pdf", contentLength := none, data := [37, 80, 68] } ∧
    directBytes chunkedWorld samplePaper = none ∧
    (download chunkedWorld { question := some samplePaper, requester := owner }).res.status
      = 404 ∧
    (download chunkedWorld { question := some samplePaper, requester := owner }).res.body
      = Body.json "File could not be retrieved from storage" ∧
    (download chunkedWorld { question := some samplePaper, requester := owner }).trace.any
      Action.isSigning = true ∧
    (download thirdAttemptWorld { question := some samplePaper, requester := owner }).res.body
      = Body.buffer [1, 2, 3, 4] ∧
    (download thirdAttemptWorld
      { question := some samplePaper, requester := owner }).res.getHeader "Content-Length"
      = none ∧
    (download liveWorld
      { question := some samplePaper, requester := owner }).res.getHeader "Content-Length"
      = some "3" := by
  decide

/-- Headers of a direct fetch that runs to its end: when the direct GET of an allowed request
is fulfilled and the `setHeader` statements of lines 527-530 go through, the response carries
the fetched bytes, `Content-Disposition` is `attachment; filename="<fileName>"` and
`Content-Type` is the upstream content-type, or `application/pdf` when the upstream response
has none. -/
theorem direct_success_headers (w : World) (s : Store) (q : Question) (r : HttpResponse)
    (hfind : w.findError = none) (hq : s.question = some q) (hfile : q.fileUrl ≠ "")
    (hgate : canDownload s.requester q = true) (hsave : w.saveError = none)
    (huser : w.userUpdateError = none) (hurl : includes q.fileUrl "cloudinary.com" = true)
    (hget : w.httpGet 0 q.fileUrl = some r)
    (hacc : headersAccepted (directHeaders q r) = true) :
    (download w s).res.status = 200 ∧
    (download w s).res.body = Body.buffer r.data ∧
    (download w s).res.getHeader "Content-Disposition"
      = some ("attachment; filename=\"" ++ q.fileName ++ "\"") ∧
    (download w s).res.getHeader "Content-Type"
      = some (match r.contentType with
          | some t => if t = "" then "application/pdf" else t
          | none => "application/pdf") := by
  rw [download_chain w s q hfind hq hfile hgate hsave huser hurl]
  have hres := retrievalChain_direct_res w q {} r hget hacc
  have hsb := Res.setHeaders_status_body (directHeaders q r) ({} : Exchange).res
  simp only [hres]
  refine ⟨hsb.1, rfl, ?_, ?_⟩
  · show (Res.setHeaders _ (directHeaders q r)).1.getHeader "Content-Disposition" = _
    apply Res.getHeader_setHeaders _ _ _ _ hacc
    · simp [directHeaders]
    · intro v2 hv2
      simpa [directHeaders] using hv2
  · show (Res.setHeaders _ (directHeaders q r)).1.getHeader "Content-Type" = _
    have hct : orDefault r.contentType "application/pdf" =
        (match r.contentType with
          | some t => if t = "" then "application/pdf" else t
          | none => "application/pdf") := by
      cases r.contentType <;> simp [orDefault, orElse]
    rw [← hct]
    apply Res.getHeader_setHeaders _ _ _ _ hacc
    · simp [directHeaders]
    · intro v2 hv2
      simpa [directHeaders] using hv2

/-- The owner gets the sample paper from the direct fetch of `liveWorld`. -/
theorem direct_success_headers_witness :
    (download liveWorld { question := some samplePaper, requester := owner }).res.status = 200 ∧
    (download liveWorld { question := some samplePaper, requester := owner }).res.body
      = Body.buffer [37, 80, 68] ∧
    (download liveWorld
      { question := some samplePaper, requester := owner }).res.getHeader "Content-Disposition"
      = some ("attachment; filename=\"" ++ "paper.pdf" ++ "\"") ∧
    (download liveWorld
      { question := some samplePaper, requester := owner }).res.getHeader "Content-Type"
      = some "application/pdf" :=
  direct_success_headers liveWorld { question := some samplePaper, requester := owner }
    samplePaper _ rfl rfl (by decide) (by decide) rfl rfl (by decide) rfl (by decide)

/-- Headers of a signed attempt that runs to its end: when the blocks before it are left
through their `catch`, the GET of the attempt is fulfilled and the `setHeader` statements of
lines 583-588 go through, the response carries its bytes, `Content-Type` is the upstream
content-type, or `application/octet-stream` when the upstream response has none, and the file
name of `Content-Disposition` is `fileName` when that is non-empty and
`download.<derived extension>` otherwise. -/
theorem signed_success_headers (w : World) (s : Store) (q : Question) (i : Nat) (a : Attempt)
    (r : HttpResponse)
    (hfind : w.findError = none) (hq : s.question = some q) (hfile : q.fileUrl ≠ "")
    (hgate : canDownload s.requester q = true) (hsave : w.saveError = none)
    (huser : w.userUpdateError = none) (hurl : includes q.fileUrl "cloudinary.com" = true)
    (hd : directBytes w q = none) (hpid : q.cloudinaryPublicId ≠ "")
    (hi : (attempts (fileExtension w q))[i]? = some a)
    (hget : w.httpGet (i + 1) (signedUrl w q i a) = some r)
    (hacc : headersAccepted (signedHeaders (orElse q.fileName "") (fileExtension w q) r) = true)
    (hprev : ∀ j b, j < i → (attempts (fileExtension w q))[j]? = some b →
      attemptBytes w q j b = none) :
    (download w s).res.body = Body.buffer r.data ∧
    (download w s).res.getHeader "Content-Type"
      = some (match r.contentType with
          | some t => if t = "" then "application/octet-stream" else t
          | none => "application/octet-stream") ∧
    (download w s).res.getHeader "Content-Disposition"
      = some ("attachment; filename=\"" ++
          (if q.fileName ≠ "" then q.fileName else "download." ++ fileExtension w q) ++ "\"") := by
  rw [download_chain w s q hfind hq hfile hgate hsave huser hurl]
  obtain ⟨r0, hres⟩ := retrievalChain_signed_res w q {} i a r hd hpid hi hget hacc hprev
  simp only [hres]
  have hname : orElse (orElse q.fileName "") ("download." ++ fileExtension w q) =
      (if q.fileName ≠ "" then q.fileName else "download." ++ fileExtension w q) := by
    by_cases hn : q.fileName = "" <;> simp [orElse, hn]
  have hct : orDefault r.contentType "application/octet-stream" =
      (match r.contentType with
        | some t => if t = "" then "application/octet-stream" else t
        | none => "application/octet-stream") := by
    cases r.contentType <;> simp [orDefault, orElse]
  refine ⟨rfl, ?_, ?_⟩
  · show (Res.setHeaders _ (signedHeaders _ _ r)).1.getHeader "Content-Type" = _
    rw [← hct]
    apply Res.getHeader_setHeaders _ _ _ _ hacc
    · simp [signedHeaders]
    · intro v2 hv2
      by_cases ht : truthy r.contentLength = true <;> simpa [signedHeaders, ht] using hv2
  · show (Res.setHeaders _ (signedHeaders _ _ r)).1.getHeader "Content-Disposition" = _
    rw [← hname]
    apply Res.getHeader_setHeaders _ _ _ _ hacc
    · simp [signedHeaders]
    · intro v2 hv2
      by_cases ht : truthy r.contentLength = true <;> simpa [signedHeaders, ht] using hv2

/-- The third signed attempt serves the sample paper under its own name and, for the record
without a file name, under `download.pdf`. -/
theorem signed_success_headers_witness :
    ((download thirdAttemptWorld { question := some samplePaper, requester := owner }).res.body
        = Body.buffer [1, 2, 3, 4] ∧
      (download thirdAttemptWorld
        { question := some samplePaper, requester := owner }).res.getHeader "Content-Type"
        = some "application/octet-stream" ∧
      (download thirdAttemptWorld
        { question := some samplePaper, requester := owner }).res.getHeader "Content-Disposition"
        = some ("attachment; filename=\"" ++ "paper.pdf" ++ "\"")) ∧
    (download thirdAttemptWorld
      { question := some namelessPaper, requester := owner }).res.getHeader "Content-Disposition"
      = some ("attachment; filename=\"" ++ "download.pdf" ++ "\"") :=
  ⟨signed_success_headers thirdAttemptWorld { question := some samplePaper, requester := owner }
      samplePaper 2 { type := "upload", resource_type := "raw" } _ rfl rfl (by decide)
      (by decide) rfl rfl (by decide) (by decide) (by decide) (by decide) rfl (by decide)
      (fun j b hlt _ => attemptBytes_none_of_get thirdAttemptWorld samplePaper j b
        (by show (if j + 1 = 3 then _ else _) = none; exact if_neg (by omega))),
   (signed_success_headers thirdAttemptWorld
      { question := some namelessPaper, requester := owner }
      namelessPaper 2 { type := "upload", resource_type := "raw" } _ rfl rfl (by decide)
      (by decide) rfl rfl (by decide) (by decide) (by decide) (by decide) rfl (by decide)
      (fun j b hlt _ => attemptBytes_none_of_get thirdAttemptWorld namelessPaper j b
        (by show (if j + 1 = 3 then _ else _) = none; exact if_neg (by omega)))).2.2⟩

/-- C18: the version handed to `cloudinary.url` is the digit string of the first
`/v<digits>/` segment of `fileUrl`; it is undefined exactly when `fileUrl` holds no such
segment; every attempt, and every signing the chain performs, gets that same version. For the
sample paper it is `1712`, and a segment such as `/v1a/` is passed over. -/
theorem version_token (w : World) (q : Question) :
    (∀ ds, version q.fileUrl = some (String.mk ds) ↔ FirstVersion q.fileUrl.data ds) ∧
    (version q.fileUrl = none ↔ ¬ HasVersion q.fileUrl.data) ∧
    (∀ n attempt, (signOptions w q n attempt).version = version q.fileUrl) ∧
    (∀ publicId opts, Action.signUrl publicId opts ∈ (retrievalChain w q {}).trace →
      opts.version = version q.fileUrl) ∧
    version samplePaper.fileUrl = some "1712" ∧
    version "https://res.cloudinary.com/demo/v1a/raw/v/v77/upload/v8/f.pdf" = some "77" ∧
    version "https://res.cloudinary.com/demo/raw/upload/f.pdf" = none := by
  refine ⟨?_, ?_, fun _ _ => rfl, ?_, by decide, by decide, by decide⟩
  · intro ds
    rw [← matchVersion_eq_some_iff]
    unfold version
    constructor
    · intro h
      obtain ⟨ds2, h2, h3⟩ := Option.map_eq_some'.mp h
      have hds : ds2 = ds := by injection h3
      rw [h2, hds]
    · intro h
      rw [h]
      rfl
  · rw [← matchVersion_eq_none_iff]
    unfold version
    cases matchVersion q.fileUrl.data <;> simp
  · intro publicId opts hmem
    rcases retrievalChain_trace_mem w q _ hmem with h | ⟨m, a, h⟩ | h
    · cases h
    · simp only [attemptActions, List.mem_cons, List.mem_singleton, List.not_mem_nil,
        or_false] at h
      rcases h with h | h
      · cases h
        rfl
      · cases h
    · cases h

/-- C19, the code at the failing input: two requests for the sample paper (7 downloads) whose
`findById` both run before either `save()`. Each holds a document with 7 downloads and writes
8, so the stored counter ends at 8 and one download is lost; run one after the other the same
requests end at 9. The user counter of line 509, a store-level `$inc`, moves by one per
request under any schedule. -/
theorem interleaved_downloads_lose_an_update :
    samplePaper.downloads = 7 ∧
    runSchedule [0, 1, 0, 1] (samplePaper, [Progress.waiting, Progress.waiting])
      = ({ samplePaper with downloads := 8 }, [Progress.done, Progress.done]) ∧
    runSchedule [0, 0, 1, 1] (samplePaper, [Progress.waiting, Progress.waiting])
      = ({ samplePaper with downloads := 9 }, [Progress.done, Progress.done]) ∧
    (runIncrements [0, 1] owner).downloadsCount = owner.downloadsCount + 2 := by
  decide

/-- C20, the code at the failing input: the owner, a student, sends `PUT /:id` for the own
unverified sample paper with `isVerified` set in the body. The body is spread into the update
(line 410) and the stored record becomes verified without the verify action; the same request
with `isVerified` false takes a verified record back to unverified. -/
theorem owner_update_changes_isVerified :
    owner.role = "student" ∧ owner.isAdmin = false ∧ samplePaper.uploadedBy = owner.id ∧
    samplePaper.isVerified = false ∧
    updateQuestion none none owner (some samplePaper) { isVerified := some true } none
      = { question := some { samplePaper with isVerified := true }
          status := 200
          message := "Question updated successfully"
          destroyed := [] } ∧
    verifiedPaper.isVerified = true ∧
    (updateQuestion none none owner (some verifiedPaper) { isVerified := some false }
      none).question.map Question.isVerified = some false := by
  decide

/-! ## The stored records after a download -/

/-- The three stores a download can leave: the one it found, the one with the question
counter raised (the user update failed), the one with both counters raised. -/
theorem download_store_cases (w : World) (s : Store) (q : Question) (hq : s.question = some q) :
    (download w s).store = s ∨
    (download w s).store = { s with question := some (incrementDownloads q) } ∨
    (download w s).store =
      { question := some (incrementDownloads q), requester := incDownloadsCount s.requester } := by
  cases hfind : w.findError with
  | some e =>
    left
    unfold download
    simp [hfind, internalError]
  | none =>
    by_cases hfile : q.fileUrl = ""
    · left
      unfold download
      simp [hfind, hq, hfile]
    · cases hgate : canDownload s.requester q with
      | false =>
        left
        rw [download_denied w s q hfind hq hfile hgate]
      | true =>
        cases hsave : w.saveError with
        | some e =>
          left
          rw [download_save_error w s q e hfind hq hfile hgate hsave]
          rfl
        | none =>
          cases huser : w.userUpdateError with
          | some e =>
            right; left
            rw [download_user_error w s q e hfind hq hfile hgate hsave huser]
            rfl
          | none =>
            right; right
            cases hurl : includes q.fileUrl "cloudinary.com" with
            | false => rw [download_unsupported w s q hfind hq hfile hgate hsave huser hurl]
            | true => rw [download_chain w s q hfind hq hfile hgate hsave huser hurl]

/-! ## Lemmas on ASCII lower-casing -/

theorem Char.toLower_eq_dot (c : Char) (h : c.toLower = '.') : c = '.' := by
  unfold Char.toLower at h
  simp only at h
  split at h
  · next hc =>
    exfalso
    obtain ⟨h1, h2⟩ := hc
    generalize c.toNat = n at h h1 h2
    interval_cases n <;> revert h <;> decide
  · exact h

theorem Char.toLower_toLower (c : Char) : c.toLower.toLower = c.toLower := by
  by_cases hc : c.toNat ≥ 65 ∧ c.toNat ≤ 90
  · have h : c.toLower = Char.ofNat (c.toNat + 32) := by
      unfold Char.toLower
      simp only [hc, and_self, if_true]
    rw [h]
    obtain ⟨h1, h2⟩ := hc
    generalize c.toNat = n at h1 h2
    interval_cases n <;> decide
  · have h : c.toLower = c := by
      unfold Char.toLower
      simp only [hc, if_false]
    rw [h, h]

theorem asciiLower_no_dot (t : String) (h : '.' ∉ t.data) : '.' ∉ (asciiLower t).data := by
  intro hin
  simp only [asciiLower, List.mem_map] at hin
  obtain ⟨c, hc, hdot⟩ := hin
  rw [Char.toLower_eq_dot c hdot] at hc
  exact h hc

theorem asciiLower_asciiLower (t : String) : asciiLower (asciiLower t) = asciiLower t := by
  simp only [asciiLower, List.map_map]
  congr 1
  apply List.map_congr_left
  intro c _
  exact Char.toLower_toLower c

/-- C21, the code at the failing input: the owner creates a question and then sends
`PUT /:id` with `isVerified` set in the body. The created record is unverified with no
verifier recorded; after the update `isVerified` is true while `verifiedBy` and `verifiedAt`
are still unset. The verify action of an administrator on the created record sets all three
together. -/
theorem update_breaks_verifier_invariant :
    (createQuestion owner {} none "q2").isVerified = false ∧
    verifierRecorded (createQuestion owner {} none "q2") = false ∧
    (updateQuestion none none owner (some (createQuestion owner {} none "q2"))
      { isVerified := some true } none).status = 200 ∧
    (updateQuestion none none owner (some (createQuestion owner {} none "q2"))
      { isVerified := some true } none).question.map Question.isVerified = some true ∧
    (updateQuestion none none owner (some (createQuestion owner {} none "q2"))
      { isVerified := some true } none).question.map verifierRecorded = some false ∧
    (verifyQuestion none none admin 1700000000000
      (some (createQuestion owner {} none "q2"))).question.map Question.isVerified = some true ∧
    (verifyQuestion none none admin 1700000000000
      (some (createQuestion owner {} none "q2"))).question.map verifierRecorded = some true := by
  decide

/-- Counterexample to C22: the sample paper was verified by the administrator `u9`; a second
verification by the administrator `u8` at a later time replaces both `verifiedBy` and
`verifiedAt`. -/
theorem second_verification_overwrites :
    verifiedPaper.verifiedBy = some "u9" ∧ verifiedPaper.verifiedAt = some 1700000000000 ∧
    adminAuthAdmits otherAdmin = true ∧
    (verifyQuestion none none otherAdmin 1700000999000 (some verifiedPaper)).status = 200 ∧
    (verifyQuestion none none otherAdmin 1700000999000 (some verifiedPaper)).question.map
      Question.verifiedBy = some (some "u8") ∧
    (verifyQuestion none none otherAdmin 1700000999000 (some verifiedPaper)).question.map
      Question.verifiedAt = some (some 1700000999000) := by
  decide

/-- C22 as amended: a verification that goes through, also of a question that is verified
already, sets `verifiedBy` to the id of the administrator who sends it and `verifiedAt` to
the time of that request; a view and a download leave both fields as they were. -/
theorem verifier_is_last_verification (w : World) (s : Store) (q : Question)
    (findError saveError : Option String) (requester : User) (now : Nat)
    (hq : s.question = some q)
    (hdone : (verifyQuestion findError saveError requester now (some q)).status = 200) :
    (verifyQuestion findError saveError requester now (some q)).question
      = some { q with isVerified := true, verifiedBy := some requester.id
                      verifiedAt := some now } ∧
    (viewQuestion findError saveError (some q)).question.map Question.verifiedBy
      = some q.verifiedBy ∧
    (viewQuestion findError saveError (some q)).question.map Question.verifiedAt
      = some q.verifiedAt ∧
    (download w s).store.question.map Question.verifiedBy = some q.verifiedBy ∧
    (download w s).store.question.map Question.verifiedAt = some q.verifiedAt := by
  refine ⟨?_, ?_, ?_, ?_, ?_⟩
  · unfold verifyQuestion at hdone ⊢
    split at hdone
    · simp at hdone
    · next hadm =>
      simp only [hadm]
      cases findError with
      | some e => simp at hdone
      | none =>
        cases saveError with
        | some e => simp at hdone
        | none => simp [verify]
  · unfold viewQuestion
    cases findError <;> cases saveError <;> simp [incrementViews]
  · unfold viewQuestion
    cases findError <;> cases saveError <;> simp [incrementViews]
  · rcases download_store_cases w s q hq with h | h | h <;> simp [h, hq, incrementDownloads]
  · rcases download_store_cases w s q hq with h | h | h <;> simp [h, hq, incrementDownloads]

/-- Witness of the amended C22: the second administrator verifies the verified sample
paper. -/
theorem verifier_is_last_verification_witness :
    (verifyQuestion none none otherAdmin 1700000999000 (some verifiedPaper)).question
      = some { verifiedPaper with isVerified := true, verifiedBy := some otherAdmin.id
                                  verifiedAt := some 1700000999000 } ∧
    (viewQuestion none none (some verifiedPaper)).question.map Question.verifiedBy
      = some verifiedPaper.verifiedBy ∧
    (viewQuestion none none (some verifiedPaper)).question.map Question.verifiedAt
      = some verifiedPaper.verifiedAt ∧
    (download liveWorld { question := some verifiedPaper, requester := stranger }).store.question.map
      Question.verifiedBy = some verifiedPaper.verifiedBy ∧
    (download liveWorld { question := some verifiedPaper, requester := stranger }).store.question.map
      Question.verifiedAt = some verifiedPaper.verifiedAt :=
  verifier_is_last_verification liveWorld { question := some verifiedPaper, requester := stranger }
    verifiedPaper none none otherAdmin 1700000999000 rfl (by decide)

/-- C23, the code at the failing input: a question created by the stranger `u2` carries
`uploadedBy = u2` although the body names `u1`; the owner `u1` of the sample paper then sends
`PUT /:id` with `uploadedBy` set to `u2` in the body, and the stored `uploadedBy` changes
from `u1` to `u2`. -/
theorem owner_update_changes_uploadedBy :
    (createQuestion stranger { uploadedBy := some "u1" } none "q3").uploadedBy = stranger.id ∧
    samplePaper.uploadedBy = "u1" ∧ owner.id = "u1" ∧
    (updateQuestion none none owner (some samplePaper) { uploadedBy := some "u2" } none).status
      = 200 ∧
    (updateQuestion none none owner (some samplePaper) { uploadedBy := some "u2" }
      none).question.map Question.uploadedBy = some "u2" := by
  decide

/-- C24: a view that is answered 200 raises `views` by exactly one and leaves `downloads`,
`isVerified`, `verifiedBy` and `verifiedAt` as they were; a download that is answered with a
file raises `downloads` by exactly one and leaves `views` as it was; whatever the outcome,
neither request lowers or resets `views` or `downloads`. -/
theorem view_and_download_frame (w : World) (s : Store) (q : Question)
    (findError saveError : Option String) (hq : s.question = some q) :
    ((viewQuestion findError saveError (some q)).status = 200 →
      (viewQuestion findError saveError (some q)).question
        = some { q with views := q.views + 1 }) ∧
    (∃ q1, (viewQuestion findError saveError (some q)).question = some q1 ∧
      q.views ≤ q1.views ∧ q1.downloads = q.downloads ∧ q1.isVerified = q.isVerified ∧
      q1.verifiedBy = q.verifiedBy ∧ q1.verifiedAt = q.verifiedAt) ∧
    ((download w s).res.body.isFile = true →
      (download w s).store.question = some { q with downloads := q.downloads + 1 }) ∧
    (∃ q2, (download w s).store.question = some q2 ∧
      q.downloads ≤ q2.downloads ∧ q2.views = q.views) := by
  refine ⟨?_, ?_, ?_, ?_⟩
  · intro h
    unfold viewQuestion at h ⊢
    cases findError with
    | some e => simp at h
    | none =>
      cases saveError with
      | some e => simp at h
      | none => simp [incrementViews]
  · unfold viewQuestion
    cases findError with
    | some e => exact ⟨q, rfl, Nat.le_refl _, rfl, rfl, rfl, rfl⟩
    | none =>
      cases saveError with
      | some e => exact ⟨q, rfl, Nat.le_refl _, rfl, rfl, rfl, rfl⟩
      | none => exact ⟨incrementViews q, rfl, Nat.le_succ _, rfl, rfl, rfl, rfl⟩
  · intro h
    rw [download_store_of_reached w s q hq (Or.inl h)]
    rfl
  · rcases download_store_cases w s q hq with h | h | h
    · exact ⟨q, by rw [h, hq], Nat.le_refl _, rfl⟩
    · exact ⟨incrementDownloads q, by rw [h], Nat.le_succ _, rfl⟩
    · exact ⟨incrementDownloads q, by rw [h], Nat.le_succ _, rfl⟩

/-- Witness of C24: a view of the sample paper takes `views` from 0 to 1, and a download by
its owner takes `downloads` from 7 to 8 with `views` still 0. -/
theorem view_and_download_frame_witness :
    (viewQuestion none none (some samplePaper)).question
      = some { samplePaper with views := 0 + 1 } ∧
    (download liveWorld { question := some samplePaper, requester := owner }).store.question
      = some { samplePaper with downloads := 7 + 1 } :=
  have h := view_and_download_frame liveWorld { question := some samplePaper, requester := owner }
    samplePaper none none rfl
  ⟨h.1 (by decide), h.2.2.1 (by decide)⟩

/-- C26: for an existing question the update and the delete handler answer 403 exactly when
the requester is neither the uploader nor of role `admin`; a 403 leaves the record as it was
and hands nothing to `cloudinary.uploader.destroy`; for a missing question both answer
404. -/
theorem update_delete_authorization (requester : User) (q : Question) (body : UpdateBody)
    (file : Option UploadedFile) (updateError deleteError : Option String) :
    ((updateQuestion none updateError requester (some q) body file).status ≠ 403 ↔
      (q.uploadedBy = requester.id ∨ requester.role = "admin")) ∧
    ((deleteQuestion none deleteError requester (some q)).status ≠ 403 ↔
      (q.uploadedBy = requester.id ∨ requester.role = "admin")) ∧
    (¬ (q.uploadedBy = requester.id ∨ requester.role = "admin") →
      updateQuestion none updateError requester (some q) body file
        = { question := some q, status := 403
            message := "Not authorized to update this question", destroyed := [] } ∧
      deleteQuestion none deleteError requester (some q)
        = { question := some q, status := 403
            message := "Not authorized to delete this question", destroyed := [] }) ∧
    (updateQuestion none updateError requester none body file).status = 404 ∧
    (updateQuestion none updateError requester none body file).question = none ∧
    (deleteQuestion none deleteError requester none).status = 404 ∧
    (deleteQuestion none deleteError requester none).question = none := by
  have hgate : (q.uploadedBy != requester.id && requester.role != "admin") = true ↔
      ¬ (q.uploadedBy = requester.id ∨ requester.role = "admin") := by
    simp [not_or]
  refine ⟨?_, ?_, ?_, rfl, rfl, rfl, rfl⟩
  · by_cases h : (q.uploadedBy = requester.id ∨ requester.role = "admin")
    · have hg : ¬ ((q.uploadedBy != requester.id && requester.role != "admin") = true) :=
        fun hc => hgate.mp hc h
      unfold updateQuestion
      cases updateError <;> simp [hg, h]
    · have hg := hgate.mpr h
      unfold updateQuestion
      simp [hg, h]
  · by_cases h : (q.uploadedBy = requester.id ∨ requester.role = "admin")
    · have hg : ¬ ((q.uploadedBy != requester.id && requester.role != "admin") = true) :=
        fun hc => hgate.mp hc h
      unfold deleteQuestion
      cases deleteError <;> simp [hg, h]
    · have hg := hgate.mpr h
      unfold deleteQuestion
      simp [hg, h]
  · intro h
    have hg := hgate.mpr h
    unfold updateQuestion deleteQuestion
    simp [hg]

/-- C28, the code at the failing input: a teacher whose record has `isAdmin` true. The
middleware `adminAuth` (auth.js, line 45) admits the teacher, who may verify the paper of
another user, but the gates of the download, update and delete handlers (questions.js, lines
494, 406 and 458), which test the role alone, do not treat the teacher as administrator: the
download of that unverified paper, its update and its deletion are answered with 403. -/
theorem flagged_user_is_admin_for_adminAuth_only :
    flaggedTeacher.role = "teacher" ∧ flaggedTeacher.isAdmin = true ∧
    adminAuthAdmits flaggedTeacher = true ∧
    (verifyQuestion none none flaggedTeacher 1700000000000 (some samplePaper)).status = 200 ∧
    isAdmin flaggedTeacher = false ∧
    (download liveWorld { question := some samplePaper, requester := flaggedTeacher }).res.status
      = 403 ∧
    (updateQuestion none none flaggedTeacher (some samplePaper) {} none).status = 403 ∧
    (deleteQuestion none none flaggedTeacher (some samplePaper)).status = 403 := by
  decide

/-- The two tests for an administrator: `adminAuth` admits a user exactly when the flag
`isAdmin` is true or the role is `admin`, while the gates of the download, update and delete
handlers test the role alone. Every user the gates treat as administrator is admitted by
`adminAuth`, and the two tests differ only on users whose flag `isAdmin` is true under
another role. -/
theorem admin_notions (u : User) :
    (adminAuthAdmits u = true ↔ (u.isAdmin = true ∨ u.role = "admin")) ∧
    (isAdmin u = true ↔ u.role = "admin") ∧
    (isAdmin u = true → adminAuthAdmits u = true) ∧
    (u.isAdmin = false → (adminAuthAdmits u = true ↔ isAdmin u = true)) ∧
    (∀ findError saveError now stored,
      (verifyQuestion findError saveError u now stored).status = 403 ↔
        adminAuthAdmits u = false) := by
  have h1 : adminAuthAdmits u = true ↔ (u.isAdmin = true ∨ u.role = "admin") := by
    unfold adminAuthAdmits
    cases u.isAdmin <;> by_cases hr : u.role = "admin" <;> simp [hr]
  have h2 : isAdmin u = true ↔ u.role = "admin" := by simp [isAdmin]
  refine ⟨h1, h2, fun h => h1.mpr (Or.inr (h2.mp h)), ?_, ?_⟩
  · intro hflag
    rw [h1, h2, hflag]
    simp
  · intro findError saveError now stored
    unfold verifyQuestion adminAuthAdmits
    by_cases hc : (!u.isAdmin && u.role != "admin") = true
    · simp [hc]
    · simp only [hc, Bool.false_eq_true, if_false]
      cases findError <;> cases stored <;> cases saveError <;> simp

/-- C25, the code at the failing input: a file named `macro.docm` sent with the MIME type
`application/msword`. Its extension `docm` is none of the twenty allowed extensions, but the
expression of line 33 has no anchors and finds `doc` inside it, so the filter accepts the
file. A listed extension is accepted and an extension that holds no listed one is rejected
with the `Unsupported file type` error. -/
theorem file_filter_accepts_unlisted_extension :
    asciiLower (splitPop '.' "macro.docm") = "docm" ∧ "docm" ∉ allowedTypes ∧
    "application/msword" ∈ allowedMimeTypes ∧
    fileFilter asciiLower { originalname := "macro.docm", mimetype := "application/msword" }
      = Except.ok true ∧
    fileFilter asciiLower { originalname := "paper.PDF", mimetype := "application/pdf" }
      = Except.ok true ∧
    (fileFilter asciiLower { originalname := "song.mp3", mimetype := "application/pdf" }).toBool
      = false :=
  ⟨by decide, by decide, by decide, rfl, rfl, rfl⟩

/-- C27: with a `toLowerCase` that brings no dot into a text without one, that changes
nothing when applied twice and that leaves `pdf` as it is, the derived extension of every
`fileName` and `fileUrl` is non-empty, holds no dot and is its own lower-casing; the fallback
name `download.<extension>` is longer than `download.`. -/
theorem fileExtension_wellformed (w : World) (q : Question)
    (hdot : ∀ t : String, '.' ∉ t.data → '.' ∉ (w.toLowerCase t).data)
    (hidem : ∀ t, w.toLowerCase (w.toLowerCase t) = w.toLowerCase t)
    (hpdf : w.toLowerCase "pdf" = "pdf") :
    fileExtension w q ≠ "" ∧ '.' ∉ (fileExtension w q).data ∧
    w.toLowerCase (fileExtension w q) = fileExtension w q ∧
    "download." ++ fileExtension w q ≠ "download." := by
  have key : ∀ x : String, includes x "." = true →
      '.' ∉ (w.toLowerCase (splitPop '.' x)).data ∧
      w.toLowerCase (w.toLowerCase (splitPop '.' x)) = w.toLowerCase (splitPop '.' x) :=
    fun x hx => ⟨hdot _ (splitPop_after_last '.' x ((includes_dot_iff x).mp hx)).2, hidem _⟩
  have hA : extFromName w (orElse q.fileName "") = "" ∨
      ('.' ∉ (extFromName w (orElse q.fileName "")).data ∧
        w.toLowerCase (extFromName w (orElse q.fileName ""))
          = extFromName w (orElse q.fileName "")) := by
    unfold extFromName
    split
    · next h => exact Or.inr (key _ h)
    · exact Or.inl rfl
  have hB : extFromUrl w q.fileUrl = "" ∨
      ('.' ∉ (extFromUrl w q.fileUrl).data ∧
        w.toLowerCase (extFromUrl w q.fileUrl) = extFromUrl w q.fileUrl) := by
    unfold extFromUrl
    split
    · exact Or.inl rfl
    · simp only
      split
      · next h => exact Or.inr (key _ h)
      · exact Or.inl rfl
  have hgood : fileExtension w q ≠ "" ∧ '.' ∉ (fileExtension w q).data ∧
      w.toLowerCase (fileExtension w q) = fileExtension w q := by
    unfold fileExtension
    generalize extFromName w (orElse q.fileName "") = a at hA
    generalize extFromUrl w q.fileUrl = b at hB
    by_cases ha : a = ""
    · by_cases hb : b = ""
      · subst ha hb
        exact ⟨by decide, by decide, hpdf⟩
      · have he : orElse a (orElse b "pdf") = b := by simp [orElse, ha, hb]
        rw [he]
        rcases hB with h | h
        · exact absurd h hb
        · exact ⟨hb, h.1, h.2⟩
    · have he : orElse a (orElse b "pdf") = a := by simp [orElse, ha]
      rw [he]
      rcases hA with h | h
      · exact absurd h ha
      · exact ⟨ha, h.1, h.2⟩
  refine ⟨hgood.1, hgood.2.1, hgood.2.2, ?_⟩
  intro h
  apply hgood.1
  have hlen := congrArg String.length h
  simp only [String.length_append] at hlen
  have h0 : (fileExtension w q).length = 0 := by omega
  have hd : (fileExtension w q).data = [] := List.length_eq_zero.mp h0
  have : fileExtension w q = String.mk (fileExtension w q).data := rfl
  rw [this, hd]

/-- Witness of C27: a `fileName` that ends in a dot with a text that is no URL, and both
empty, give `pdf`. -/
theorem fileExtension_wellformed_witness :
    (fileExtension deadWorld { samplePaper with fileName := "notes.", fileUrl := "no url" } ≠ "" ∧
      '.' ∉ (fileExtension deadWorld
        { samplePaper with fileName := "notes.", fileUrl := "no url" }).data ∧
      deadWorld.toLowerCase
          (fileExtension deadWorld { samplePaper with fileName := "notes.", fileUrl := "no url" })
        = fileExtension deadWorld { samplePaper with fileName := "notes.", fileUrl := "no url" } ∧
      "download." ++
          fileExtension deadWorld { samplePaper with fileName := "notes.", fileUrl := "no url" }
        ≠ "download.") ∧
    fileExtension deadWorld { samplePaper with fileName := "", fileUrl := "" } ≠ "" :=
  ⟨fileExtension_wellformed deadWorld
      { samplePaper with fileName := "notes.", fileUrl := "no url" }
      asciiLower_no_dot asciiLower_asciiLower (by decide),
   (fileExtension_wellformed deadWorld { samplePaper with fileName := "", fileUrl := "" }
      asciiLower_no_dot asciiLower_asciiLower (by decide)).1⟩

/-- C29: for a count `total ≥ 0` and query values that parse to `page ≥ 1` and `limit ≥ 1`,
`totalPages` is the ceiling of `total / limit` (in integers `(total + limit - 1) div limit`),
`hasNext` holds exactly when `page < totalPages`, `hasPrev` exactly when `page > 1`, and
`(page - 1) * limit` records are skipped; a page value that parses to NaN or 0 becomes 1 and a
limit value that parses to NaN or 0 becomes 10. -/
theorem users_pagination (page limit total : Int) (_ht : 0 ≤ total) (hl : 1 ≤ limit)
    (hp : 1 ≤ page) :
    (usersPage (some page) (some limit) total).pagination.currentPage = page ∧
    (usersPage (some page) (some limit) total).limit = limit ∧
    (usersPage (some page) (some limit) total).pagination.totalPages
      = Int.ceil ((total : ℚ) / (limit : ℚ)) ∧
    (usersPage (some page) (some limit) total).pagination.totalPages
      = (total + limit - 1) / limit ∧
    ((usersPage (some page) (some limit) total).pagination.hasNext = true ↔
      page < (usersPage (some page) (some limit) total).pagination.totalPages) ∧
    ((usersPage (some page) (some limit) total).pagination.hasPrev = true ↔ page > 1) ∧
    (usersPage (some page) (some limit) total).skip = (page - 1) * limit ∧
    (usersPage none (some limit) total).pagination.currentPage = 1 ∧
    (usersPage (some 0) (some limit) total).pagination.currentPage = 1 ∧
    (usersPage (some page) none total).limit = 10 ∧
    (usersPage (some page) (some 0) total).limit = 10 := by
  have hp0 : page ≠ 0 := by omega
  have hl0 : limit ≠ 0 := by omega
  have hlq : (0 : ℚ) < (limit : ℚ) := by exact_mod_cast (by omega : (0 : Int) < limit)
  have hceil : Int.ceil ((total : ℚ) / (limit : ℚ)) = (total + limit - 1) / limit := by
    rw [Int.ceil_eq_iff]
    have h1 : (total + limit - 1) / limit * limit ≤ total + limit - 1 :=
      Int.ediv_mul_le _ hl0
    have h2 : total + limit - 1 < ((total + limit - 1) / limit + 1) * limit :=
      Int.lt_ediv_add_one_mul_self _ (by omega)
    have h3 : total + limit - 1 < (total + limit - 1) / limit * limit + limit := by
      have : ((total + limit - 1) / limit + 1) * limit
          = (total + limit - 1) / limit * limit + limit := by ring
      rw [this] at h2
      exact h2
    constructor
    · rw [lt_div_iff₀ hlq]
      have : ((total + limit - 1) / limit * limit : Int) - limit < total := by omega
      have hq : (((((total + limit - 1) / limit * limit : Int) - limit : Int)) : ℚ)
          < (total : ℚ) := by exact_mod_cast this
      push_cast at hq
      linarith
    · rw [div_le_iff₀ hlq]
      have : total ≤ ((total + limit - 1) / limit * limit : Int) := by omega
      have hq : (total : ℚ) ≤ ((((total + limit - 1) / limit * limit : Int)) : ℚ) := by
        exact_mod_cast this
      push_cast at hq
      linarith
  have hnext : page * limit < total ↔ page < Int.ceil ((total : ℚ) / (limit : ℚ)) := by
    rw [Int.lt_ceil, lt_div_iff₀ hlq]
    constructor
    · intro h
      exact_mod_cast h
    · intro h
      exact_mod_cast h
  refine ⟨by simp [usersPage, parsedOr, hp0], by simp [usersPage, parsedOr, hl0],
    by simp [usersPage, parsedOr, hl0], ?_, ?_, by simp [usersPage, parsedOr, hp0],
    by simp [usersPage, parsedOr, hp0, hl0], by simp [usersPage, parsedOr],
    by simp [usersPage, parsedOr], by simp [usersPage, parsedOr],
    by simp [usersPage, parsedOr]⟩
  · simp only [usersPage, parsedOr, hl0, if_false]
    exact hceil
  · simp only [usersPage, parsedOr, hp0, hl0, if_false, decide_eq_true_eq]
    exact hnext

/-- Witness of C29: 35 users, page 2 of 10 per page: four pages, a next and a previous page,
ten records skipped. -/
theorem users_pagination_witness :
    (usersPage (some 2) (some 10) 35).pagination.totalPages = (35 + 10 - 1) / 10 ∧
    ((usersPage (some 2) (some 10) 35).pagination.hasNext = true ↔
      2 < (usersPage (some 2) (some 10) 35).pagination.totalPages) ∧
    ((usersPage (some 2) (some 10) 35).pagination.hasPrev = true ↔ (2 : Int) > 1) ∧
    (usersPage (some 2) (some 10) 35).skip = (2 - 1) * 10 :=
  have h := users_pagination 2 10 35 (by decide) (by decide) (by decide)
  ⟨h.2.2.2.1, h.2.2.2.2.1, h.2.2.2.2.2.1, h.2.2.2.2.2.2.1⟩

/-- C30: for `t ≥ 0` milliseconds, with `hours = t div 3600000` and
`minutes = (t mod 3600000) div 60000`, `minutes < 60` and `hours * 60 + minutes = t div 60000`;
`formatTimeRemaining t` is `<hours>h <minutes>m` when `hours > 0` and `<minutes>m`
otherwise. -/
theorem formatTimeRemaining_parts (t : Int) (ht : 0 ≤ t) :
    t % 3600000 / 60000 < 60 ∧
    t / 3600000 * 60 + t % 3600000 / 60000 = t / 60000 ∧
    formatTimeRemaining t =
      (if t / 3600000 > 0 then
        toString (t / 3600000) ++ "h " ++ toString (t % 3600000 / 60000) ++ "m"
      else toString (t % 3600000 / 60000) ++ "m") := by
  refine ⟨by omega, by omega, ?_⟩
  have h1 : Int.fdiv t (1000 * 60 * 60) = t / 3600000 := by
    rw [Int.fdiv_eq_ediv t (by decide)]
    rfl
  have h2 : Int.tmod t (1000 * 60 * 60) = t % 3600000 := by
    rw [Int.tmod_eq_emod ht (by decide)]
    rfl
  have h3 : Int.fdiv (t % 3600000) (1000 * 60) = t % 3600000 / 60000 := by
    rw [Int.fdiv_eq_ediv _ (by decide)]
    rfl
  unfold formatTimeRemaining
  simp only [h1, h2, h3]

/-- Witness of C30: two hours and five minutes, and five minutes. -/
theorem formatTimeRemaining_parts_witness :
    formatTimeRemaining 7500000 = "2h 5m" ∧ formatTimeRemaining 300000 = "5m" :=
  ⟨(formatTimeRemaining_parts 7500000 (by decide)).2.2.trans (by decide),
   (formatTimeRemaining_parts 300000 (by decide)).2.2.trans (by decide)⟩

/-! ## The chain on fetched files whose headers are refused -/

/-- C9, the code at the failing input: an allowed request whose direct GET is fulfilled with
three bytes and no content-length header. The direct fetch is the first strategy that
succeeds in the sense of the specification (`fetchedBody` at 0), but `setHeader` of line 529
throws on the missing value, the chain goes on to the first signed attempt, and the request
is answered with the two bytes of that attempt, or with 404 when no later strategy returns
a file. The same happens when line 527 is refused because `fileName` holds a character above
0xff: all six blocks are run and the answer is 404. -/
theorem chain_goes_on_after_fetched_file :
    fetchedBody chunkedThenSignedWorld samplePaper 0 = some (Body.buffer [37, 80, 68]) ∧
    (retrievalChain chunkedThenSignedWorld samplePaper {}).trace
      = Action.httpGet samplePaper.fileUrl ::
          attemptActions chunkedThenSignedWorld samplePaper 0
            { type := "authenticated", resource_type := "raw" } ∧
    (retrievalChain chunkedThenSignedWorld samplePaper {}).res.body = Body.buffer [9, 9] ∧
    (download chunkedThenSignedWorld
      { question := some samplePaper, requester := owner }).res.body = Body.buffer [9, 9] ∧
    fetchedBody chunkedWorld samplePaper 0 = some (Body.buffer [37, 80, 68]) ∧
    (download chunkedWorld { question := some samplePaper, requester := owner }).res.status
      = 404 ∧
    (download chunkedWorld { question := some samplePaper, requester := owner }).trace.length
      = 10 ∧
    fetchedBody liveWorld unicodePaper 0 = some (Body.buffer [37, 80, 68]) ∧
    (download liveWorld { question := some unicodePaper, requester := owner }).res.status
      = 404 ∧
    (download liveWorld { question := some unicodePaper, requester := owner }).trace
      = (List.range 6).flatMap (strategyActions liveWorld unicodePaper) := by
  decide

/-- C16, the code at the failing input: an allowed request whose direct GET is fulfilled
without content-type and without content-length. The direct fetch has succeeded in the sense
of the specification (`directFetched`), so the claim asks for `Content-Type: application/pdf`
on the fetched bytes; `setHeader` of line 529 throws, the first signed attempt serves its own
bytes and the response carries `application/octet-stream`. With no later file the answer is
404 with a JSON body. For a `fileName` with a character above 0xff line 527 throws: the
answer is 404 and no `Content-Disposition` is set at all. -/
theorem fetched_file_loses_direct_headers :
    directFetched chunkedThenSignedWorld samplePaper = some [37, 80, 68] ∧
    (chunkedThenSignedWorld.httpGet 0 samplePaper.fileUrl).bind (fun r => r.contentType)
      = none ∧
    (download chunkedThenSignedWorld
      { question := some samplePaper, requester := owner }).res.getHeader "Content-Type"
      = some "application/octet-stream" ∧
    (download chunkedThenSignedWorld
      { question := some samplePaper, requester := owner }).res.body = Body.buffer [9, 9] ∧
    directFetched chunkedWorld samplePaper = some [37, 80, 68] ∧
    (download chunkedWorld { question := some samplePaper, requester := owner }).res.status
      = 404 ∧
    (download chunkedWorld { question := some samplePaper, requester := owner }).res.body
      = Body.json "File could not be retrieved from storage" ∧
    directFetched liveWorld unicodePaper = some [37, 80, 68] ∧
    (download liveWorld { question := some unicodePaper, requester := owner }).res.status
      = 404 ∧
    (download liveWorld
      { question := some unicodePaper, requester := owner }).res.getHeader "Content-Disposition"
      = none := by
  decide

/-- C17, the code at the failing input: an allowed request for a paper whose `fileName` is
`文.pdf`, the direct GET being rejected and every signed GET fulfilled with four bytes. The
first signed attempt has succeeded in the sense of the specification (`attemptFetched`), but
`setHeader` of line 583 refuses the value built from `fileName`, so the bytes are dropped,
the three other attempts meet the same end, and the answer is 404 without any
`Content-Disposition`. In the same world the paper named `paper.pdf` is served by the first
signed attempt under its own name. -/
theorem signed_file_with_wide_name_dropped :
    directFetched signedWorld unicodePaper = none ∧
    attemptFetched signedWorld unicodePaper 0 { type := "authenticated", resource_type := "raw" }
      = some [1, 2, 3, 4] ∧
    unicodePaper.fileName ≠ "" ∧
    validHeaderValue ("attachment; filename=\"" ++ unicodePaper.fileName ++ "\"") = false ∧
    (download signedWorld { question := some unicodePaper, requester := owner }).res.status
      = 404 ∧
    (download signedWorld { question := some unicodePaper, requester := owner }).res.body
      = Body.json "File could not be retrieved from storage" ∧
    (download signedWorld
      { question := some unicodePaper, requester := owner }).res.getHeader "Content-Disposition"
      = none ∧
    (download signedWorld { question := some unicodePaper, requester := owner }).trace
      = (List.range 6).flatMap (strategyActions signedWorld unicodePaper) ∧
    (download signedWorld { question := some samplePaper, requester := owner }).res.body
      = Body.buffer [1, 2, 3, 4] ∧
    (download signedWorld
      { question := some samplePaper, requester := owner }).res.getHeader "Content-Disposition"
      = some "attachment; filename=\"paper.pdf\"" := by
  decide

end QuestionBank
